import Mathlib

/-! ## ngx_http_read_request_body_module: a shallow embedding

The module `ngx_http_read_request_body_module.c` reads a client request body in
unbuffered mode and copies it into one buffer.  This file embeds its functions
(`body_size`, `save`, `do_read`, `on_read`, the post handler and the rewrite
handler) as Lean functions over an explicit request state, and proves
properties of them.

Conventions of the embedding.
* Pointers to buffers allocated from the request pool are indices into the
  pool's heap; the chunk buffers of `rb->busy` are held by value, in chain
  order.
* Every buffer carries the memory its four pointers point into as a total
  map from addresses to bytes; `memcpy` is an update of that map.
* `size_t` arithmetic is taken modulo `2 ^ 64`, `ngx_int_t` is a two's
  complement 64 bit integer.
* nginx functions the module calls (`ngx_create_temp_buf`,
  `ngx_http_read_unbuffered_request_body`, `ngx_http_finalize_request`, ...)
  are collaborators: allocation outcomes and the results of the read primitive
  are scripted in the state, finalisation and pipeline re-entry are recorded in
  a call log.  Log messages are not modelled.
-/

namespace ReadRequestBody

/-! ## Machine integers -/

/-- A byte of memory. -/
abbrev u_char := Nat

/-- Conversion of a mathematical integer to `size_t` (64 bit, unsigned). -/
def to_size_t (i : Int) : Nat := (i % 2 ^ 64).toNat

/-- Conversion of a mathematical integer to `ngx_int_t` (64 bit, signed). -/
def to_ngx_int_t (i : Int) : Int := (i + 2 ^ 63) % 2 ^ 64 - 2 ^ 63

/-- Difference of two pointers into one region, as the `size_t` the module
stores it in. -/
def ptr_diff (a b : Nat) : Nat := to_size_t ((a : Int) - (b : Int))

/-! ## nginx status codes -/

/-- Modelled from the spec: the nginx status `NGX_OK` (declared in nginx's
`ngx_core.h`, outside this repository), the "complete" result. -/
def NGX_OK : Int := 0

/-- Modelled from the spec: the nginx status `NGX_ERROR` (declared in nginx's
`ngx_core.h`, outside this repository), the "error" result. -/
def NGX_ERROR : Int := -1

/-- Modelled from the spec: the nginx status `NGX_AGAIN` (declared in nginx's
`ngx_core.h`, outside this repository), the "more needed" result. -/
def NGX_AGAIN : Int := -2

/-- Modelled from the spec: the nginx status `NGX_DONE` (declared in nginx's
`ngx_core.h`, outside this repository), "response pending, do not proceed". -/
def NGX_DONE : Int := -4

/-- Modelled from the spec: the nginx status `NGX_DECLINED` (declared in
nginx's `ngx_core.h`, outside this repository), "not participating". -/
def NGX_DECLINED : Int := -5

/-- Modelled from the spec: `NGX_HTTP_SPECIAL_RESPONSE` (declared in nginx's
`ngx_http_request.h`, outside this repository), the least early/special
response status. -/
def NGX_HTTP_SPECIAL_RESPONSE : Int := 300

/-- Modelled from the spec: `NGX_HTTP_INTERNAL_SERVER_ERROR` (declared in
nginx's `ngx_http_request.h`, outside this repository), the internal failure
status. -/
def NGX_HTTP_INTERNAL_SERVER_ERROR : Int := 500

/-! ## Buffers, chains and pools -/

/-- The fields of `ngx_buf_t` the module uses, with the memory they point
into. -/
structure ngx_buf_t where
  pos : Nat
  last : Nat
  start : Nat
  end_ : Nat
  mem : Nat → u_char

/-- The bytes between `pos` and `last` of a buffer. -/
def ngx_buf_t.data (b : ngx_buf_t) : List u_char :=
  (List.range' b.pos (b.last - b.pos)).map b.mem

/-- A chain link: a pointer to a buffer of the pool and a pointer to the next
link. -/
structure ngx_chain_t where
  buf : Nat
  next : Option Nat
deriving DecidableEq

/-- An allocation call on a pool, as recorded in the pool. -/
inductive alloc_t where
  | ngx_create_temp_buf (size : Nat)
  | ngx_alloc_chain_link
  | ngx_pcalloc
  | ngx_palloc
deriving DecidableEq

/-- A pool: the buffers created from it (`heap`, addressed by the pointers
below `brk`), the outcomes of the allocation calls still to come (`true` is
success; once the script is used up allocations succeed) and the allocation
calls made so far. -/
structure ngx_pool_t where
  heap : Nat → ngx_buf_t
  brk : Nat
  outcomes : List Bool
  requests : List alloc_t

/-- Modelled from the spec: `memcpy` of the C library, copying `n` bytes from
address `s` of `smem` to address `d` of `dmem`. -/
def memcpy (dmem : Nat → u_char) (d : Nat) (smem : Nat → u_char) (s n : Nat) :
    Nat → u_char :=
  fun a => if d ≤ a ∧ a < d + n then smem (s + (a - d)) else dmem a

/-- Modelled from the spec: nginx's `ngx_create_temp_buf(pool, size)` (outside
this repository).  On success it returns a pointer to a new buffer with
`pos = last = start` and `end = start + size`; on failure it returns NULL. -/
def ngx_create_temp_buf (pool : ngx_pool_t) (size : Nat) : Option Nat × ngx_pool_t :=
  match pool.outcomes with
  | false :: rest =>
    (none, { pool with outcomes := rest,
                       requests := pool.requests ++ [alloc_t.ngx_create_temp_buf size] })
  | outcomes =>
    (some pool.brk,
     { heap := Function.update pool.heap pool.brk
         { pos := 0, last := 0, start := 0, end_ := size, mem := fun _ => 0 },
       brk := pool.brk + 1,
       outcomes := outcomes.tail,
       requests := pool.requests ++ [alloc_t.ngx_create_temp_buf size] })

/-- Modelled from the spec: nginx's `ngx_alloc_chain_link(pool)` (outside this
repository): a new chain link with unset fields, or NULL. -/
def ngx_alloc_chain_link (pool : ngx_pool_t) : Option ngx_chain_t × ngx_pool_t :=
  match pool.outcomes with
  | false :: rest =>
    (none, { pool with outcomes := rest,
                       requests := pool.requests ++ [alloc_t.ngx_alloc_chain_link] })
  | outcomes =>
    (some { buf := 0, next := none },
     { pool with outcomes := outcomes.tail,
                 requests := pool.requests ++ [alloc_t.ngx_alloc_chain_link] })

/-- Modelled from the spec: nginx's `ngx_pcalloc(pool, size)` (outside this
repository), reporting whether the zeroed block was obtained. -/
def ngx_pcalloc (pool : ngx_pool_t) : Bool × ngx_pool_t :=
  match pool.outcomes with
  | false :: rest =>
    (false, { pool with outcomes := rest,
                        requests := pool.requests ++ [alloc_t.ngx_pcalloc] })
  | outcomes =>
    (true, { pool with outcomes := outcomes.tail,
                       requests := pool.requests ++ [alloc_t.ngx_pcalloc] })

/-! ## The request -/

/-- The fields of `r->headers_in` read by `body_size`. -/
structure ngx_http_headers_in_t where
  chunked : Bool
  content_length_n : Int
deriving DecidableEq

/-- The request body holder `ngx_http_request_body_t`: the chain handed to
later phases and the chain of chunks the read primitive filled. -/
structure ngx_http_request_body_t where
  bufs : Option ngx_chain_t
  busy : List ngx_buf_t

/-- The per-request state of the module. -/
structure ngx_http_read_request_body_ctx_t where
  bufs : Option ngx_chain_t
  done : Bool
deriving DecidableEq

/-- The module's location configuration. -/
structure ngx_http_read_request_body_conf_t where
  read_request_body : Int
deriving DecidableEq

/-- The field of nginx's core location configuration read by `body_size`. -/
structure ngx_http_core_loc_conf_t where
  client_max_body_size : Int
deriving DecidableEq

/-- The values `r->read_event_handler` takes: nginx's blocking handler, the
module's `on_read`, or a handler installed by nginx. -/
inductive handler_t where
  | ngx_http_block_reading
  | on_read
  | ngx_http_read_client_request_body_handler
deriving DecidableEq

/-- The calls into nginx that are recorded, in order, in the request's log. -/
inductive call_t where
  | ngx_http_read_unbuffered_request_body
  | ngx_http_read_client_request_body
  | ngx_http_finalize_request (rc : Int)
  | ngx_http_core_run_phases
deriving DecidableEq

/-- One scripted result of the read primitive: its return code and the chunk
chain it leaves in `rb->busy`. -/
structure read_result where
  rc : Int
  busy : List ngx_buf_t

/-- The read handlers nginx itself installs while it reads a body. -/
inductive nginx_handler_t where
  | unchanged
  | ngx_http_block_reading
  | ngx_http_read_client_request_body_handler
deriving DecidableEq

/-- One scripted result of `ngx_http_read_client_request_body`: its return
code, the body holder, `reading_body` flag, buffering mode and read handler it
leaves in the request, and whether it invokes the post handler. -/
structure start_result where
  rc : Int
  request_body : Option ngx_http_request_body_t
  reading_body : Bool
  request_body_no_buffering : Bool
  read_event_handler : nginx_handler_t
  post : Bool

/-- The request `ngx_http_request_t`, with the configuration of the matched
location, the module's context slot, the log of calls into nginx and the
scripts of the collaborators. -/
structure ngx_http_request_t where
  nginx_version : Nat
  headers_in : ngx_http_headers_in_t
  clcf : ngx_http_core_loc_conf_t
  rrbcf : ngx_http_read_request_body_conf_t
  request_body : Option ngx_http_request_body_t
  pool : ngx_pool_t
  connection_pool : ngx_pool_t
  ctx : Option ngx_http_read_request_body_ctx_t
  read_event_handler : handler_t
  reading_body : Bool
  request_body_no_buffering : Bool
  count : Nat
  calls : List call_t
  reads : List read_result
  starts : List start_result

/-! ## The capacity estimator -/

/-- The function `body_size` (source lines 82-96): the `off_t` fields are
converted to the `size_t` it returns. -/
def body_size (r : ngx_http_request_t) : Nat :=
  if !r.headers_in.chunked then
    to_size_t r.headers_in.content_length_n
  else if r.clcf.client_max_body_size ≠ 0 then
    to_size_t r.clcf.client_max_body_size
  else
    1024 * 1024

/-! ## The drain step -/

/-- The body of `if (n > available)` in `save` (source lines 115-131): a
larger buffer is created and the bytes written so far are copied to it.  It
returns the new value of the local `dst`, or NULL when the allocation
failed, and the pool. -/
def save_grow (pool : ngx_pool_t) (dst n : Nat) : Option Nat × ngx_pool_t :=
  let d := pool.heap dst
  let already := ptr_diff d.last d.pos
  let required := (already + n) % 2 ^ 64
  let size := (2 * ptr_diff d.end_ d.start) % 2 ^ 64
  let size := if required > size then required else size
  match ngx_create_temp_buf pool size with
  | (none, pool) => (none, pool)
  | (some tmp, pool) =>
    let t := pool.heap tmp
    let t := { t with mem := memcpy t.mem t.pos d.mem d.pos already,
                      last := t.last + already }
    (some tmp, { pool with heap := Function.update pool.heap tmp t })

/-- The statements `memcpy(dst->last, src->pos, n); dst->last += n` of `save`
(source lines 133 and 135) on the buffer `dst` points to. -/
def save_copy (pool : ngx_pool_t) (dst : Nat) (src : ngx_buf_t) (n : Nat) : ngx_pool_t :=
  let d := pool.heap dst
  let d := { d with mem := memcpy d.mem d.last src.mem src.pos n, last := d.last + n }
  { pool with heap := Function.update pool.heap dst d }

/-- The loop of `save` (source lines 110-138) over the chain cells still to
visit, with the pool, the local `dst` and the local `bytes`.  It returns the
value `save` returns, the cells with their cursors as the loop left them, and
the pool. -/
def save_loop : List ngx_buf_t → ngx_pool_t → Nat → Int →
    Int × List ngx_buf_t × ngx_pool_t
  | [], pool, _, bytes => (bytes, [], pool)
  | src :: cl, pool, dst, bytes =>
    let n := ptr_diff src.last src.pos
    let available := ptr_diff (pool.heap dst).end_ (pool.heap dst).last
    match (if n > available then save_grow pool dst n else (some dst, pool)) with
    | (none, pool) => (NGX_ERROR, src :: cl, pool)
    | (some dst, pool) =>
      let res := save_loop cl (save_copy pool dst src n) dst (to_ngx_int_t (bytes + n))
      (res.1, { src with pos := src.pos + n } :: res.2.1, res.2.2)

/-- The function `save` (source lines 98-145).  The result is `none` when the
C code dereferences a NULL `bufs`. -/
def save (bufs : Option ngx_chain_t) (r : ngx_http_request_t) :
    Option (Int × ngx_http_request_t) :=
  match r.request_body with
  | none => some (0, r)
  | some rb =>
    match bufs with
    | none => none
    | some bufs =>
      let res := save_loop rb.busy r.pool bufs.buf 0
      some (res.1, { r with request_body := some { rb with busy := res.2.1 },
                            pool := res.2.2 })


/-! ## Collaborators of the read loop -/

/-- Modelled from the spec: nginx's `ngx_http_read_unbuffered_request_body`
(outside this repository), the non-blocking read primitive.  It takes its next
scripted result, leaving the chunks in `rb->busy`; with the script used up it
reports `NGX_AGAIN` and leaves the chunks as they are. -/
def ngx_http_read_unbuffered_request_body (r : ngx_http_request_t) :
    Int × ngx_http_request_t :=
  let r := { r with calls := r.calls ++ [call_t.ngx_http_read_unbuffered_request_body] }
  match r.reads with
  | [] => (NGX_AGAIN, r)
  | e :: rest =>
    (e.rc, { r with reads := rest,
                    request_body := r.request_body.map fun rb => { rb with busy := e.busy } })

/-- Modelled from the spec: nginx's `ngx_http_finalize_request(r, rc)` (outside
this repository), recorded in the call log. -/
def ngx_http_finalize_request (r : ngx_http_request_t) (rc : Int) : ngx_http_request_t :=
  { r with calls := r.calls ++ [call_t.ngx_http_finalize_request rc] }

/-- Modelled from the spec: nginx's `ngx_http_core_run_phases(r)` (outside this
repository), the pipeline re-entry, recorded in the call log. -/
def ngx_http_core_run_phases (r : ngx_http_request_t) : ngx_http_request_t :=
  { r with calls := r.calls ++ [call_t.ngx_http_core_run_phases] }

/-- Modelled from the spec: nginx's `ngx_http_block_reading(r)` (outside this
repository), the "reads blocked" handler: a readiness notification is
ignored. -/
def ngx_http_block_reading (r : ngx_http_request_t) : ngx_http_request_t := r

/-- The statement `r->main->count--` on the 16 bit counter. -/
def count_decrement (r : ngx_http_request_t) : ngx_http_request_t :=
  { r with count := (r.count + 2 ^ 16 - 1) % 2 ^ 16 }

/-! ## The read-drive loop -/

/-- The three statements every terminal branch of `do_read` starts with:
`r->read_event_handler = ngx_http_block_reading; ctx->done = 1;
r->request_body->bufs = ctx->bufs;`.  The result is `none` when
`r->request_body` is NULL. -/
def do_read_done (r : ngx_http_request_t) (ctx : ngx_http_read_request_body_ctx_t) :
    Option ngx_http_request_t :=
  match r.request_body with
  | none => none
  | some rb =>
    some { r with read_event_handler := handler_t.ngx_http_block_reading,
                  ctx := some { ctx with done := true },
                  request_body := some { rb with bufs := ctx.bufs } }

/-- The do-while loop of `do_read` (source lines 153-183), run for at most
`fuel` iterations.  The result is `none` when the iterations are used up or
the C code dereferences a NULL pointer. -/
def do_read_loop : Nat → ngx_http_request_t → ngx_http_read_request_body_ctx_t →
    Option ngx_http_request_t
  | 0, _, _ => none
  | fuel + 1, r, ctx =>
    let (rc, r) := ngx_http_read_unbuffered_request_body r
    match save ctx.bufs r with
    | none => none
    | some (bytes, r) =>
      if bytes < 0 ∨ rc = NGX_ERROR then
        (do_read_done r ctx).map fun r =>
          ngx_http_finalize_request r NGX_HTTP_INTERNAL_SERVER_ERROR
      else if rc = NGX_OK then
        (do_read_done r ctx).map fun r =>
          ngx_http_core_run_phases (if r.nginx_version ≥ 8011 then count_decrement r else r)
      else if rc ≥ NGX_HTTP_SPECIAL_RESPONSE then
        (do_read_done r ctx).map fun r => ngx_http_finalize_request r rc
      else if bytes > 0 then
        do_read_loop fuel r ctx
      else
        some r

/-- The function `do_read` (source lines 147-184).  With a script of `k`
results of the read primitive the loop runs at most `k + 2` iterations: more
fuel does not change the result (`do_read_loop_fuel`), and with a body holder
and an accumulator chain the function returns (`do_read_returns`). -/
def do_read (r : ngx_http_request_t) (ctx : ngx_http_read_request_body_ctx_t) :
    Option ngx_http_request_t :=
  do_read_loop (r.reads.length + 2) r ctx

/-- The function `on_read` (source lines 186-200). -/
def on_read (r : ngx_http_request_t) : Option ngx_http_request_t :=
  match r.ctx with
  | none => some (ngx_http_finalize_request r NGX_HTTP_INTERNAL_SERVER_ERROR)
  | some ctx => do_read r ctx

/-! ## The pipeline adapter -/

/-- The function `ngx_http_read_request_body_post_handler` (source lines
202-259). -/
def ngx_http_read_request_body_post_handler (r : ngx_http_request_t) :
    Option ngx_http_request_t :=
  match r.ctx with
  | none => some (ngx_http_finalize_request r NGX_HTTP_INTERNAL_SERVER_ERROR)
  | some ctx =>
    if r.reading_body then
      let size := body_size r
      match ngx_create_temp_buf r.pool size with
      | (none, pool) =>
        some (ngx_http_finalize_request { r with pool := pool } NGX_HTTP_INTERNAL_SERVER_ERROR)
      | (some b, pool) =>
        match ngx_alloc_chain_link pool with
        | (none, pool) =>
          some (ngx_http_finalize_request
            { r with pool := pool, ctx := some { ctx with bufs := none } }
            NGX_HTTP_INTERNAL_SERVER_ERROR)
        | (some link, pool) =>
          let ctx := { ctx with bufs := some { link with next := none, buf := b } }
          let r := { r with pool := pool, ctx := some ctx }
          match save ctx.bufs r with
          | none => none
          | some (bytes, r) =>
            if bytes < 0 then
              some (ngx_http_finalize_request r NGX_HTTP_INTERNAL_SERVER_ERROR)
            else
              do_read { r with read_event_handler := handler_t.on_read } ctx
    else
      let r := { r with ctx := some { ctx with done := true } }
      let r := if r.nginx_version ≥ 8011 then count_decrement r else r
      some (ngx_http_core_run_phases r)

/-- Modelled from the spec: nginx's `ngx_http_read_client_request_body(r,
post_handler)` (outside this repository).  It takes its next scripted result:
it leaves the body holder, flags and read handler of that result in the
request, invokes the post handler if the result says so, and returns the
result's code.  With the script used up it reports `NGX_AGAIN` and does
nothing else. -/
def ngx_http_read_client_request_body (r : ngx_http_request_t)
    (post_handler : ngx_http_request_t → Option ngx_http_request_t) :
    Option (Int × ngx_http_request_t) :=
  let r := { r with calls := r.calls ++ [call_t.ngx_http_read_client_request_body] }
  match r.starts with
  | [] => some (NGX_AGAIN, r)
  | e :: rest =>
    let r := { r with
      starts := rest,
      request_body := e.request_body,
      reading_body := e.reading_body,
      request_body_no_buffering := e.request_body_no_buffering,
      read_event_handler :=
        match e.read_event_handler with
        | nginx_handler_t.unchanged => r.read_event_handler
        | nginx_handler_t.ngx_http_block_reading => handler_t.ngx_http_block_reading
        | nginx_handler_t.ngx_http_read_client_request_body_handler =>
          handler_t.ngx_http_read_client_request_body_handler }
    if e.post then (post_handler r).map fun r => (e.rc, r) else some (e.rc, r)

/-- The part of `ngx_http_read_request_body_handler` after the context is
known (source lines 295-316). -/
def ngx_http_read_request_body_handler_read (r : ngx_http_request_t)
    (ctx : ngx_http_read_request_body_ctx_t) : Option (Int × ngx_http_request_t) :=
  if !ctx.done then
    let r := { r with request_body_no_buffering := true }
    match ngx_http_read_client_request_body r ngx_http_read_request_body_post_handler with
    | none => none
    | some (rc, r) =>
      if rc = NGX_ERROR then
        some (rc, r)
      else if rc ≥ NGX_HTTP_SPECIAL_RESPONSE then
        some (rc, if r.nginx_version < 1002006 ∨
                     (r.nginx_version ≥ 1003000 ∧ r.nginx_version < 1003009)
                  then count_decrement r else r)
      else
        some (NGX_DONE, r)
  else
    some (NGX_DECLINED, r)

/-- The function `ngx_http_read_request_body_handler` (source lines 261-317),
the rewrite phase handler. -/
def ngx_http_read_request_body_handler (r : ngx_http_request_t) :
    Option (Int × ngx_http_request_t) :=
  if r.rrbcf.read_request_body = 0 then
    some (NGX_DECLINED, r)
  else
    match r.ctx with
    | some ctx => ngx_http_read_request_body_handler_read r ctx
    | none =>
      match ngx_pcalloc r.connection_pool with
      | (false, cpool) =>
        some (NGX_HTTP_INTERNAL_SERVER_ERROR, { r with connection_pool := cpool })
      | (true, cpool) =>
        let ctx : ngx_http_read_request_body_ctx_t := { bufs := none, done := false }
        ngx_http_read_request_body_handler_read
          { r with connection_pool := cpool, ctx := some ctx } ctx

/-- The dispatch of a read-readiness notification through
`r->read_event_handler`.  Modelled from the spec: nginx's own
`ngx_http_read_client_request_body_handler` (outside this repository)
continues the body read and takes the next scripted result of
`ngx_http_read_client_request_body`. -/
def read_event (r : ngx_http_request_t) : Option ngx_http_request_t :=
  match r.read_event_handler with
  | handler_t.ngx_http_block_reading => some (ngx_http_block_reading r)
  | handler_t.on_read => on_read r
  | handler_t.ngx_http_read_client_request_body_handler =>
    (ngx_http_read_client_request_body r ngx_http_read_request_body_post_handler).map
      fun res => res.2

/-! ## Deliveries and concrete states -/

/-- The bytes accumulated so far: those between `pos` and `last` of the
buffer `bufs->buf` points to. -/
def accumulated (bufs : ngx_chain_t) (r : ngx_http_request_t) : List u_char :=
  (r.pool.heap bufs.buf).data

/-- One chunk delivery followed by the drain: the transport leaves `chunks`
in `rb->busy` and `save` runs. -/
def deliver (bufs : ngx_chain_t) (r : ngx_http_request_t) (chunks : List ngx_buf_t) :
    Option (Int × ngx_http_request_t) :=
  save (some bufs)
    { r with request_body := r.request_body.map fun rb => { rb with busy := chunks } }

/-- A sequence of chunk deliveries, each followed by the drain. -/
def deliver_all (bufs : ngx_chain_t) :
    ngx_http_request_t → List (List ngx_buf_t) → Option ngx_http_request_t
  | r, [] => some r
  | r, chunks :: rest =>
    match deliver bufs r chunks with
    | none => none
    | some res => deliver_all bufs res.2 rest

/-- A chunk buffer holding exactly the bytes `l`, all unread. -/
def chunk_of (l : List u_char) : ngx_buf_t :=
  { pos := 0, last := l.length, start := 0, end_ := l.length, mem := fun a => l.getD a 0 }

/-- A pool holding nothing, with the given script of allocation outcomes. -/
def empty_pool (outcomes : List Bool) : ngx_pool_t :=
  { heap := fun _ => { pos := 0, last := 0, start := 0, end_ := 0, mem := fun _ => 0 },
    brk := 0, outcomes := outcomes, requests := [] }

/-- A request with an empty body holder and nothing scripted, on which
concrete runs are built. -/
def blank_request : ngx_http_request_t :=
  { nginx_version := 1018000,
    headers_in := { chunked := false, content_length_n := 0 },
    clcf := { client_max_body_size := 0 },
    rrbcf := { read_request_body := 1 },
    request_body := some { bufs := none, busy := [] },
    pool := empty_pool [],
    connection_pool := empty_pool [],
    ctx := none,
    read_event_handler := handler_t.ngx_http_block_reading,
    reading_body := false,
    request_body_no_buffering := false,
    count := 1,
    calls := [],
    reads := [],
    starts := [] }

/-- The request `r` with its pool replaced by one that holds a single
accumulator buffer of capacity `size` created by `ngx_create_temp_buf`, with
the given script of later allocation outcomes, and the chain link pointing to
that buffer. -/
def with_accumulator (r : ngx_http_request_t) (size : Nat) (outcomes : List Bool) :
    ngx_chain_t × ngx_http_request_t :=
  let res := ngx_create_temp_buf (empty_pool (true :: outcomes)) size
  ({ buf := res.1.getD 0, next := none }, { r with pool := res.2 })

/-- A request with a fixed-length body of 10 bytes. -/
def request_10 : ngx_http_request_t :=
  { blank_request with headers_in := { chunked := false, content_length_n := 10 } }

/-- Scenario A: the initial buffer of a request with a declared length of 10
bytes, sized by `body_size`. -/
def scenario_a : ngx_chain_t × ngx_http_request_t :=
  with_accumulator request_10 (body_size request_10) []

/-- Scenario A: the body arrives as chunks of 4, 3 and 3 bytes over three read
events. -/
def scenario_a_deliveries : List (List ngx_buf_t) :=
  [[chunk_of [1, 2, 3, 4]], [chunk_of [5, 6, 7]], [chunk_of [8, 9, 10]]]

/-- A chunked request with an initial buffer of 4 bytes in which every
allocation succeeds. -/
def small_accumulator : ngx_chain_t × ngx_http_request_t :=
  with_accumulator
    { blank_request with headers_in := { chunked := true, content_length_n := -1 },
                         clcf := { client_max_body_size := 4 } }
    4 []

/-- The number of unread bytes in a chain of chunks. -/
def unread : List ngx_buf_t → Nat
  | [] => 0
  | c :: cl => (c.last - c.pos) + unread cl

/-- The unread bytes of a chain of chunks, in chain order. -/
def unread_bytes : List ngx_buf_t → List u_char
  | [] => []
  | c :: cl => c.data ++ unread_bytes cl

/-- The size `save` requests from `ngx_create_temp_buf` when a chunk of `n`
bytes does not fit in the buffer `d` (source lines 117-122). -/
def grow_size (d : ngx_buf_t) (n : Nat) : Nat :=
  if (ptr_diff d.last d.pos + n) % 2 ^ 64 > (2 * ptr_diff d.end_ d.start) % 2 ^ 64 then
    (ptr_diff d.last d.pos + n) % 2 ^ 64
  else (2 * ptr_diff d.end_ d.start) % 2 ^ 64

/-- A request whose chunks `[1, 2, 3]` and `[4, 5, 6]` wait in `rb->busy`, with
an empty accumulator of capacity 4 and every allocation succeeding. -/
def growth_request : ngx_http_request_t :=
  { small_accumulator.2 with
      request_body := some { bufs := none, busy := [chunk_of [1, 2, 3], chunk_of [4, 5, 6]] } }

/-- A request whose chunk of 6 bytes waits in `rb->busy`, with an empty
accumulator of capacity 4; the next allocation fails, later ones succeed. -/
def retry_request : ngx_chain_t × ngx_http_request_t :=
  let acc := with_accumulator blank_request 4 [false]
  (acc.1, { acc.2 with
      request_body := some { bufs := none, busy := [chunk_of [1, 2, 3, 4, 5, 6]] } })

/-- Scenario D: the initial buffer of a chunked request is attached to the
context, nothing was read yet, and the first call of the read primitive
reports status 413 without chunks. -/
def scenario_d : ngx_http_read_request_body_ctx_t × ngx_http_request_t :=
  ({ bufs := some small_accumulator.1, done := false },
   { small_accumulator.2 with
       ctx := some { bufs := some small_accumulator.1, done := false },
       read_event_handler := handler_t.on_read,
       reading_body := true,
       reads := [{ rc := 413, busy := [] }] })

/-! ## The completion flag along runs -/

/-- The completion flag of a request: `ctx->done` of its context, false while
no context exists. -/
def done_flag (r : ngx_http_request_t) : Bool :=
  match r.ctx with
  | some ctx => ctx.done
  | none => false

/-- The operations of the module on a request. -/
inductive op_t where
  | ngx_http_read_request_body_handler
  | ngx_http_read_request_body_post_handler
  | on_read
  | do_read
deriving DecidableEq

/-- One operation of the module applied to a request; `do_read` is called with
the context of the request, as its callers do. -/
def run_op : op_t → ngx_http_request_t → Option ngx_http_request_t
  | op_t.ngx_http_read_request_body_handler, r =>
    (ngx_http_read_request_body_handler r).map fun res => res.2
  | op_t.ngx_http_read_request_body_post_handler, r =>
    ngx_http_read_request_body_post_handler r
  | op_t.on_read, r => on_read r
  | op_t.do_read, r =>
    match r.ctx with
    | some ctx => do_read r ctx
    | none => none

/-- A sequence of operations applied to a request, with the state after each
operation. -/
def run_ops : List op_t → ngx_http_request_t → Option (List ngx_http_request_t)
  | [], _ => some []
  | op :: ops, r =>
    match run_op op r with
    | none => none
    | some r1 => (run_ops ops r1).map fun states => r1 :: states

/-- The number of positions at which a sequence of flag values changes. -/
def flag_changes : List Bool → Nat
  | a :: b :: l => (if a = b then 0 else 1) + flag_changes (b :: l)
  | _ => 0

/-- A number of read-readiness notifications in a row, each dispatched through
`r->read_event_handler`. -/
def read_events : Nat → ngx_http_request_t → Option ngx_http_request_t
  | 0, r => some r
  | k + 1, r =>
    match read_event r with
    | none => none
    | some r1 => read_events k r1

/-- Scenario A as a run: the rewrite handler starts the body read of a request
with a declared length of 10; nginx has 4 bytes at hand and invokes the post
handler; two read events bring 3 bytes each, the second one completes the
body. -/
def scenario_a_run : ngx_http_request_t :=
  { request_10 with
      request_body := none,
      starts := [{ rc := NGX_AGAIN,
                   request_body := some { bufs := none, busy := [chunk_of [1, 2, 3, 4]] },
                   reading_body := true,
                   request_body_no_buffering := true,
                   read_event_handler := nginx_handler_t.ngx_http_block_reading,
                   post := true }],
      reads := [{ rc := NGX_AGAIN, busy := [] },
                { rc := NGX_AGAIN, busy := [chunk_of [5, 6, 7]] },
                { rc := NGX_AGAIN, busy := [] },
                { rc := NGX_OK, busy := [chunk_of [8, 9, 10]] }] }

/-- A chunked request under a ceiling of 4 bytes whose post handler is about
to run: the context exists with the flag clear, nginx has read a chunk of 6
bytes, left the request in the reading-body state and installed its blocking
read handler.  The pool follows the given script of allocation outcomes. -/
def post_failure_request (outcomes : List Bool) : ngx_http_request_t :=
  { blank_request with
      headers_in := { chunked := true, content_length_n := -1 },
      clcf := { client_max_body_size := 4 },
      request_body := some { bufs := none, busy := [chunk_of [1, 2, 3, 4, 5, 6]] },
      pool := empty_pool outcomes,
      ctx := some { bufs := none, done := false },
      reading_body := true,
      request_body_no_buffering := true,
      starts := [{ rc := NGX_AGAIN,
                   request_body := some { bufs := none, busy := [chunk_of [1, 2, 3, 4, 5, 6]] },
                   reading_body := true,
                   request_body_no_buffering := true,
                   read_event_handler := nginx_handler_t.ngx_http_block_reading,
                   post := true }] }

/-- A request whose completion flag is already true, with the accumulator of
capacity 4 attached to the context, on which the read primitive would report
completion with one more byte. -/
def done_request : ngx_http_request_t :=
  { small_accumulator.2 with
      ctx := some { bufs := some small_accumulator.1, done := true },
      reads := [{ rc := NGX_OK, busy := [chunk_of [7]] }] }

/-! ## Configuration -/

/-- Modelled from the spec: nginx's `NGX_CONF_UNSET` (declared in nginx's
`ngx_conf_file.h`, outside this repository), the value of a flag no directive
has set. -/
def NGX_CONF_UNSET : Int := -1

/-- Modelled from the spec: nginx's macro `ngx_conf_merge_value(conf, prev,
default)` (outside this repository): an unset `conf` takes the value of
`prev`, or `default` when `prev` is unset too.  It returns the new `conf`. -/
def ngx_conf_merge_value (conf prev default : Int) : Int :=
  if conf = NGX_CONF_UNSET then (if prev = NGX_CONF_UNSET then default else prev) else conf

/-- Modelled from the spec: nginx's `ngx_palloc(pool, size)` (outside this
repository), reporting whether the block was obtained. -/
def ngx_palloc (pool : ngx_pool_t) : Bool × ngx_pool_t :=
  match pool.outcomes with
  | false :: rest =>
    (false, { pool with outcomes := rest,
                        requests := pool.requests ++ [alloc_t.ngx_palloc] })
  | outcomes =>
    (true, { pool with outcomes := outcomes.tail,
                       requests := pool.requests ++ [alloc_t.ngx_palloc] })

/-- The function `ngx_http_read_request_body_create_cf` (source lines
346-359) on the pool `cf->pool`: the new configuration, or `none` for
`NGX_CONF_ERROR`. -/
def ngx_http_read_request_body_create_cf (pool : ngx_pool_t) :
    Option ngx_http_read_request_body_conf_t × ngx_pool_t :=
  match ngx_palloc pool with
  | (false, pool) => (none, pool)
  | (true, pool) => (some { read_request_body := NGX_CONF_UNSET }, pool)

/-- The function `ngx_http_read_request_body_merge_cf` (source lines 361-370):
the parent and the child configuration as the call leaves them. -/
def ngx_http_read_request_body_merge_cf (prev conf : ngx_http_read_request_body_conf_t) :
    ngx_http_read_request_body_conf_t × ngx_http_read_request_body_conf_t :=
  (prev, { conf with read_request_body :=
             ngx_conf_merge_value conf.read_request_body prev.read_request_body 0 })

/-- The directive handler `ngx_http_read_request_body` (source lines
373-381): the configuration as the call leaves it. -/
def ngx_http_read_request_body (conf : ngx_http_read_request_body_conf_t) :
    ngx_http_read_request_body_conf_t :=
  { conf with read_request_body := 1 }

/-- Scenario E: the request of scenario A on a route whose flag is off. -/
def scenario_e : ngx_http_request_t :=
  { scenario_a_run with rrbcf := { read_request_body := 0 } }

/-- A request in the middle of a body read: the accumulator of capacity 4 is
attached to the context, the next read brings two bytes and the one after it
nothing, both without ending the body. -/
def pending_request : ngx_http_read_request_body_ctx_t × ngx_http_request_t :=
  (scenario_d.1,
   { scenario_d.2 with
       reads := [{ rc := NGX_AGAIN, busy := [chunk_of [1, 2]] },
                 { rc := NGX_AGAIN, busy := [] }] })

/-! ## Regions and loop states -/

/-- The region invariant of a buffer, `start <= pos <= last <= end`, with the
region inside the address space of a 64 bit pointer. -/
abbrev ngx_buf_t.wf (b : ngx_buf_t) : Prop :=
  b.start ≤ b.pos ∧ b.pos ≤ b.last ∧ b.last ≤ b.end_ ∧ b.end_ < 2 ^ 64

/-- The pool, the local `dst` and the local `bytes` of `save` after its loop
(source lines 110-138) has visited the given chain cells; `none` when the loop
has returned `NGX_ERROR` at one of them. -/
def save_upto : List ngx_buf_t → ngx_pool_t → Nat → Int → Option (ngx_pool_t × Nat × Int)
  | [], pool, dst, bytes => some (pool, dst, bytes)
  | src :: cl, pool, dst, bytes =>
    let n := ptr_diff src.last src.pos
    let available := ptr_diff (pool.heap dst).end_ (pool.heap dst).last
    match (if n > available then save_grow pool dst n else (some dst, pool)) with
    | (none, _) => none
    | (some dst, pool) =>
      save_upto cl (save_copy pool dst src n) dst (to_ngx_int_t (bytes + n))

/-- An accumulator of capacity 4 holding `[1, 2, 3]` in a pool in which every
allocation succeeds. -/
def filled_accumulator : ngx_pool_t :=
  (save_loop [chunk_of [1, 2, 3]] small_accumulator.2.pool small_accumulator.1.buf 0).2.2

/-! ## Machine integers: basic facts -/

theorem ptr_diff_of_le {a b : Nat} (h : b ≤ a) (h2 : a - b < 2 ^ 64) :
    ptr_diff a b = a - b := by
  unfold ptr_diff to_size_t; omega

theorem ptr_diff_self (a : Nat) : ptr_diff a a = 0 := by
  unfold ptr_diff to_size_t; omega

theorem ptr_diff_lt (a b : Nat) : ptr_diff a b < 2 ^ 64 := by
  unfold ptr_diff to_size_t; omega

theorem ptr_diff_advance (a b : Nat) : ptr_diff a (b + ptr_diff a b) = 0 := by
  unfold ptr_diff to_size_t; omega

theorem to_ngx_int_t_of_range {i : Int} (h1 : -2 ^ 63 ≤ i) (h2 : i < 2 ^ 63) :
    to_ngx_int_t i = i := by
  unfold to_ngx_int_t; omega

/-! ## Memory: basic facts -/

theorem memcpy_zero (dmem : Nat → u_char) (d : Nat) (smem : Nat → u_char) (s : Nat) :
    memcpy dmem d smem s 0 = dmem := by
  funext a
  simp [memcpy]

theorem map_memcpy_below (dmem smem : Nat → u_char) (d s n p k : Nat) (h : p + k ≤ d) :
    (List.range' p k).map (memcpy dmem d smem s n) = (List.range' p k).map dmem := by
  apply List.map_congr_left
  intro a ha
  have := List.mem_range'_1.mp ha
  simp only [memcpy]
  rw [if_neg]
  omega

theorem map_memcpy_at (dmem smem : Nat → u_char) (d s n : Nat) :
    (List.range' d n).map (memcpy dmem d smem s n) = (List.range' s n).map smem := by
  rw [List.range'_eq_map_range, List.range'_eq_map_range s, List.map_map, List.map_map]
  apply List.map_congr_left
  intro a ha
  have := List.mem_range.mp ha
  simp only [memcpy, Function.comp]
  rw [if_pos (by omega)]
  congr 1
  omega

/-- Appending `n` bytes at `last` extends the data of a buffer with them. -/
theorem data_append (d : ngx_buf_t) (smem : Nat → u_char) (s n : Nat) (h : d.pos ≤ d.last) :
    ({ d with mem := memcpy d.mem d.last smem s n, last := d.last + n } : ngx_buf_t).data
      = d.data ++ (List.range' s n).map smem := by
  simp only [ngx_buf_t.data]
  have e : d.last + n - d.pos = n + (d.last - d.pos) := by omega
  rw [e, ← List.range'_append_1, List.map_append]
  congr 1
  · exact map_memcpy_below _ _ _ _ _ _ _ (by omega)
  · have e2 : d.pos + (d.last - d.pos) = d.last := by omega
    rw [e2]
    exact map_memcpy_at _ _ _ _ _

/-! ## The drain step: one iteration -/

/-- One iteration of the loop of `save` on a chunk that fits. -/
theorem save_loop_cons_fits (src : ngx_buf_t) (cl : List ngx_buf_t) (pool : ngx_pool_t)
    (dst : Nat) (bytes : Int)
    (h : ¬ ptr_diff src.last src.pos > ptr_diff (pool.heap dst).end_ (pool.heap dst).last) :
    save_loop (src :: cl) pool dst bytes =
      ((save_loop cl (save_copy pool dst src (ptr_diff src.last src.pos)) dst
          (to_ngx_int_t (bytes + ptr_diff src.last src.pos))).1,
       { src with pos := src.pos + ptr_diff src.last src.pos } ::
        (save_loop cl (save_copy pool dst src (ptr_diff src.last src.pos)) dst
          (to_ngx_int_t (bytes + ptr_diff src.last src.pos))).2.1,
        (save_loop cl (save_copy pool dst src (ptr_diff src.last src.pos)) dst
          (to_ngx_int_t (bytes + ptr_diff src.last src.pos))).2.2) := by
  rw [save_loop]
  simp only [if_neg h]

/-- One iteration of the loop of `save` on a chunk that does not fit, when the
allocation fails. -/
theorem save_loop_cons_fail (src : ngx_buf_t) (cl : List ngx_buf_t) (pool : ngx_pool_t)
    (dst : Nat) (bytes : Int)
    (h : ptr_diff src.last src.pos > ptr_diff (pool.heap dst).end_ (pool.heap dst).last)
    (ha : (save_grow pool dst (ptr_diff src.last src.pos)).1 = none) :
    save_loop (src :: cl) pool dst bytes =
      (NGX_ERROR, src :: cl, (save_grow pool dst (ptr_diff src.last src.pos)).2) := by
  rw [save_loop]
  simp only [if_pos h]
  split
  · rename_i pool1 heq
    rw [heq]
  · rename_i tmp pool1 heq
    rw [heq] at ha
    simp at ha

/-- One iteration of the loop of `save` on a chunk that does not fit, when the
allocation succeeds. -/
theorem save_loop_cons_grow (src : ngx_buf_t) (cl : List ngx_buf_t) (pool : ngx_pool_t)
    (dst : Nat) (bytes : Int) (tmp : Nat)
    (h : ptr_diff src.last src.pos > ptr_diff (pool.heap dst).end_ (pool.heap dst).last)
    (ha : (save_grow pool dst (ptr_diff src.last src.pos)).1 = some tmp) :
    save_loop (src :: cl) pool dst bytes =
      ((save_loop cl
          (save_copy (save_grow pool dst (ptr_diff src.last src.pos)).2 tmp src
            (ptr_diff src.last src.pos))
          tmp (to_ngx_int_t (bytes + ptr_diff src.last src.pos))).1,
       { src with pos := src.pos + ptr_diff src.last src.pos } ::
        (save_loop cl
          (save_copy (save_grow pool dst (ptr_diff src.last src.pos)).2 tmp src
            (ptr_diff src.last src.pos))
          tmp (to_ngx_int_t (bytes + ptr_diff src.last src.pos))).2.1,
        (save_loop cl
          (save_copy (save_grow pool dst (ptr_diff src.last src.pos)).2 tmp src
            (ptr_diff src.last src.pos))
          tmp (to_ngx_int_t (bytes + ptr_diff src.last src.pos))).2.2) := by
  rw [save_loop]
  simp only [if_pos h]
  split
  · rename_i pool1 heq
    rw [heq] at ha
    simp at ha
  · rename_i tmp1 pool1 heq
    rw [heq] at ha
    simp only [Option.some.injEq] at ha
    subst ha
    rw [heq]

/-! ## The drain step: chunks that fit -/

theorem save_copy_heap_self (pool : ngx_pool_t) (dst : Nat) (src : ngx_buf_t) (n : Nat) :
    (save_copy pool dst src n).heap dst =
      { pool.heap dst with
          mem := memcpy (pool.heap dst).mem (pool.heap dst).last src.mem src.pos n,
          last := (pool.heap dst).last + n } := by
  simp [save_copy]

theorem save_copy_heap_other (pool : ngx_pool_t) (dst : Nat) (src : ngx_buf_t) (n p : Nat)
    (h : p ≠ dst) : (save_copy pool dst src n).heap p = pool.heap p := by
  simp [save_copy, Function.update_noteq h]

/-- A buffer whose unread bytes number `last - pos`. -/
theorem data_eq_range (c : ngx_buf_t) :
    c.data = (List.range' c.pos (c.last - c.pos)).map c.mem := rfl

/-- When every chunk is well formed and their unread bytes fit in the
destination, the loop of `save` allocates nothing, consumes every chunk and
appends the bytes to the destination, which is otherwise unchanged. -/
theorem save_loop_fits (cl : List ngx_buf_t) :
    ∀ (pool : ngx_pool_t) (dst : Nat) (bytes : Int),
      (pool.heap dst).last ≤ (pool.heap dst).end_ →
      (pool.heap dst).end_ < 2 ^ 64 →
      (∀ c ∈ cl, c.pos ≤ c.last) →
      unread cl ≤ (pool.heap dst).end_ - (pool.heap dst).last →
      (save_loop cl pool dst bytes).2.1 = cl.map (fun c => { c with pos := c.last }) ∧
      (save_loop cl pool dst bytes).2.2.brk = pool.brk ∧
      (save_loop cl pool dst bytes).2.2.outcomes = pool.outcomes ∧
      (save_loop cl pool dst bytes).2.2.requests = pool.requests ∧
      (∀ p, p ≠ dst → (save_loop cl pool dst bytes).2.2.heap p = pool.heap p) ∧
      ((save_loop cl pool dst bytes).2.2.heap dst).pos = (pool.heap dst).pos ∧
      ((save_loop cl pool dst bytes).2.2.heap dst).start = (pool.heap dst).start ∧
      ((save_loop cl pool dst bytes).2.2.heap dst).end_ = (pool.heap dst).end_ ∧
      ((save_loop cl pool dst bytes).2.2.heap dst).last = (pool.heap dst).last + unread cl ∧
      ((pool.heap dst).pos ≤ (pool.heap dst).last →
        ((save_loop cl pool dst bytes).2.2.heap dst).data
          = (pool.heap dst).data ++ unread_bytes cl) := by
  induction cl with
  | nil =>
    intro pool dst bytes _ _ _ _
    simp [save_loop, unread, unread_bytes]
  | cons src cl ih =>
    intro pool dst bytes hle hend hwf hfit
    have hsrc : src.pos ≤ src.last := hwf src (List.mem_cons_self _ _)
    simp only [unread] at hfit
    have hn : ptr_diff src.last src.pos = src.last - src.pos :=
      ptr_diff_of_le hsrc (by omega)
    have hav : ptr_diff (pool.heap dst).end_ (pool.heap dst).last
        = (pool.heap dst).end_ - (pool.heap dst).last := ptr_diff_of_le hle (by omega)
    have hnot : ¬ ptr_diff src.last src.pos
        > ptr_diff (pool.heap dst).end_ (pool.heap dst).last := by
      rw [hn, hav]; omega
    rw [save_loop_cons_fits src cl pool dst bytes hnot, hn]
    have hself := save_copy_heap_self pool dst src (src.last - src.pos)
    have ih' := ih (save_copy pool dst src (src.last - src.pos)) dst
      (to_ngx_int_t (bytes + ((src.last - src.pos : Nat) : Int)))
      (by rw [hself]; simp only []; omega)
      (by rw [hself]; exact hend)
      (fun c hc => hwf c (List.mem_cons_of_mem _ hc))
      (by rw [hself]; simp only []; omega)
    obtain ⟨h1, h2, h3, h4, h5, h6, h7, h8, h9, h10⟩ := ih'
    rw [hself] at h6 h7 h8 h9 h10
    simp only [] at h6 h7 h8 h9 h10
    refine ⟨?_, ?_, ?_, ?_, ?_, ?_, ?_, ?_, ?_, ?_⟩
    · simp only [List.map_cons, h1]
      congr 2
      omega
    · rw [h2]; rfl
    · rw [h3]; rfl
    · rw [h4]; rfl
    · intro p hp
      rw [h5 p hp, save_copy_heap_other _ _ _ _ _ hp]
    · exact h6
    · exact h7
    · exact h8
    · rw [h9]; simp only [unread]; omega
    · intro hpos
      rw [h10 (by omega)]
      rw [data_append (pool.heap dst) src.mem src.pos (src.last - src.pos) hpos]
      simp only [unread_bytes, data_eq_range, List.append_assoc]

theorem unread_append (a b : List ngx_buf_t) : unread (a ++ b) = unread a + unread b := by
  induction a with
  | nil => simp [unread]
  | cons c a ih =>
    show (c.last - c.pos) + unread (a ++ b) = (c.last - c.pos) + unread a + unread b
    rw [ih]; omega

theorem unread_bytes_append (a b : List ngx_buf_t) :
    unread_bytes (a ++ b) = unread_bytes a ++ unread_bytes b := by
  induction a with
  | nil => simp [unread_bytes]
  | cons c a ih =>
    show c.data ++ unread_bytes (a ++ b) = c.data ++ unread_bytes a ++ unread_bytes b
    rw [ih, List.append_assoc]

theorem length_data (c : ngx_buf_t) : c.data.length = c.last - c.pos := by
  simp [ngx_buf_t.data]

theorem length_unread_bytes (cl : List ngx_buf_t) : (unread_bytes cl).length = unread cl := by
  induction cl with
  | nil => rfl
  | cons c cl ih => simp only [unread_bytes, unread, List.length_append, ih, length_data]

/-- The drain on a request with a body holder is the loop over `rb->busy`. -/
theorem deliver_eq (bufs : ngx_chain_t) (r : ngx_http_request_t)
    (rb : ngx_http_request_body_t) (chunks : List ngx_buf_t) (h : r.request_body = some rb) :
    deliver bufs r chunks =
      some ((save_loop chunks r.pool bufs.buf 0).1,
        { r with
            request_body := some { rb with busy := (save_loop chunks r.pool bufs.buf 0).2.1 },
            pool := (save_loop chunks r.pool bufs.buf 0).2.2 }) := by
  simp [deliver, save, h]

/-- C3: for an accumulator buffer as `ngx_create_temp_buf` and `save` leave it
(`start = pos <= last <= end`) with capacity `C = end - start` and written
length `w = last - pos`, and every sequence of deliveries of well-formed chunks
whose unread bytes total at most `C - w`, the drain calls allocate nothing and
afterwards the buffer `bufs->buf` holds the original `w` bytes followed by all
chunk bytes in delivery order, its written length being `w` plus the total. -/
theorem save_within_capacity (bufs : ngx_chain_t) (ds : List (List ngx_buf_t)) :
    ∀ (r : ngx_http_request_t),
      r.request_body.isSome = true →
      (r.pool.heap bufs.buf).start = (r.pool.heap bufs.buf).pos →
      (r.pool.heap bufs.buf).pos ≤ (r.pool.heap bufs.buf).last →
      (r.pool.heap bufs.buf).last ≤ (r.pool.heap bufs.buf).end_ →
      (r.pool.heap bufs.buf).end_ < 2 ^ 64 →
      (∀ chunks ∈ ds, ∀ c ∈ chunks, c.pos ≤ c.last) →
      unread ds.flatten ≤ ((r.pool.heap bufs.buf).end_ - (r.pool.heap bufs.buf).start)
        - ((r.pool.heap bufs.buf).last - (r.pool.heap bufs.buf).pos) →
      ∃ r', deliver_all bufs r ds = some r' ∧
        r'.pool.requests = r.pool.requests ∧
        r'.pool.brk = r.pool.brk ∧
        (r'.pool.heap bufs.buf).end_ - (r'.pool.heap bufs.buf).start
          = (r.pool.heap bufs.buf).end_ - (r.pool.heap bufs.buf).start ∧
        accumulated bufs r' = accumulated bufs r ++ unread_bytes ds.flatten ∧
        (r'.pool.heap bufs.buf).last - (r'.pool.heap bufs.buf).pos
          = ((r.pool.heap bufs.buf).last - (r.pool.heap bufs.buf).pos) + unread ds.flatten := by
  induction ds with
  | nil =>
    intro r _ _ _ _ _ _ _
    exact ⟨r, rfl, rfl, rfl, rfl, by simp [unread_bytes], by simp [unread]⟩
  | cons chunks ds ih =>
    intro r hrb hstart hpos hlast hend hwf hfit
    obtain ⟨rb, hrb'⟩ := Option.isSome_iff_exists.mp hrb
    simp only [List.flatten_cons, unread_append] at hfit
    obtain ⟨h1, h2, h3, h4, h5, h6, h7, h8, h9, h10⟩ :=
      save_loop_fits chunks r.pool bufs.buf 0 hlast hend
        (hwf chunks (List.mem_cons_self _ _)) (by omega)
    have ih' := ih
      { r with
          request_body := some { rb with busy := (save_loop chunks r.pool bufs.buf 0).2.1 },
          pool := (save_loop chunks r.pool bufs.buf 0).2.2 }
      rfl (by simp only []; omega) (by simp only []; omega) (by simp only []; omega)
      (by simp only []; omega)
      (fun cs hcs => hwf cs (List.mem_cons_of_mem _ hcs))
      (by simp only []; omega)
    obtain ⟨r', e1, e2, e3, e4, e5, e6⟩ := ih'
    refine ⟨r', ?_, ?_, ?_, ?_, ?_, ?_⟩
    · simp only [deliver_all, deliver_eq bufs r rb chunks hrb']
      exact e1
    · rw [e2]; exact h4
    · rw [e3]; exact h2
    · rw [e4]; simp only []; omega
    · rw [e5]
      simp only [accumulated, List.flatten_cons, unread_bytes_append]
      rw [h10 hpos, List.append_assoc]
    · rw [e6]
      simp only [List.flatten_cons, unread_append]
      omega

/-- Scenario A as an instance of `save_within_capacity`: 10 bytes delivered as
chunks of 4, 3 and 3 bytes into the initial buffer of capacity `body_size`. -/
theorem save_within_capacity_witness :
    ∃ r', deliver_all scenario_a.1 scenario_a.2 scenario_a_deliveries = some r' ∧
      r'.pool.requests = scenario_a.2.pool.requests ∧
      r'.pool.brk = scenario_a.2.pool.brk ∧
      (r'.pool.heap scenario_a.1.buf).end_ - (r'.pool.heap scenario_a.1.buf).start
        = (scenario_a.2.pool.heap scenario_a.1.buf).end_
          - (scenario_a.2.pool.heap scenario_a.1.buf).start ∧
      accumulated scenario_a.1 r'
        = accumulated scenario_a.1 scenario_a.2 ++ unread_bytes scenario_a_deliveries.flatten ∧
      (r'.pool.heap scenario_a.1.buf).last - (r'.pool.heap scenario_a.1.buf).pos
        = ((scenario_a.2.pool.heap scenario_a.1.buf).last
            - (scenario_a.2.pool.heap scenario_a.1.buf).pos)
          + unread scenario_a_deliveries.flatten :=
  save_within_capacity scenario_a.1 scenario_a_deliveries scenario_a.2
    (by decide) (by decide) (by decide) (by decide) (by decide) (by decide) (by decide)

/-! ## The drain step: growth -/

/-- C1 (failing input): an empty accumulator of capacity 4 receives the chunks
`[1, 2, 3]` and `[4, 5, 6]` in two drain calls, every allocation succeeding.
Both calls succeed, yet the buffer `bufs->buf` points to holds `[1, 2, 3]`
only: the larger buffer the second call created is never stored in
`bufs->buf`. -/
theorem save_growth_loses_bytes :
    (deliver_all small_accumulator.1 small_accumulator.2
        [[chunk_of [1, 2, 3]], [chunk_of [4, 5, 6]]]).map
      (fun r => (accumulated small_accumulator.1 r, (r.pool.heap 1).data))
      = some ([1, 2, 3], [1, 2, 3, 4, 5, 6]) := by
  decide

/-- C2 (failing input): an accumulator of capacity 4 holding `[1, 2, 3]`
receives a chunk of 2 bytes, which exceeds the remaining capacity 1, and the
allocation succeeds.  The call returns 2, but afterwards `bufs->buf` still has
capacity 4, less than 3 + 2, and holds `[1, 2, 3]`; the chunk bytes are in the
new buffer only. -/
theorem save_growth_not_attached :
    ((deliver_all small_accumulator.1 small_accumulator.2 [[chunk_of [1, 2, 3]]]).bind
      fun r1 => (deliver small_accumulator.1 r1 [chunk_of [4, 5]]).map fun res =>
        (res.1,
         (res.2.pool.heap small_accumulator.1.buf).end_
           - (res.2.pool.heap small_accumulator.1.buf).start,
         accumulated small_accumulator.1 res.2,
         (res.2.pool.heap 1).data))
      = some (2, 4, [1, 2, 3], [1, 2, 3, 4, 5]) := by
  decide

/-! ## The drain step: the value returned -/

theorem ngx_create_temp_buf_ok (pool : ngx_pool_t) (size : Nat)
    (h : ∀ o ∈ pool.outcomes, o = true) :
    (ngx_create_temp_buf pool size).1 = some pool.brk ∧
      ∀ o ∈ (ngx_create_temp_buf pool size).2.outcomes, o = true := by
  unfold ngx_create_temp_buf
  split
  · rename_i rest heq
    have := h false (by rw [heq]; exact List.mem_cons_self _ _)
    simp at this
  · refine ⟨rfl, ?_⟩
    intro o ho
    exact h o (List.mem_of_mem_tail ho)

theorem save_grow_ok (pool : ngx_pool_t) (dst n : Nat)
    (h : ∀ o ∈ pool.outcomes, o = true) :
    (save_grow pool dst n).1 = some pool.brk ∧
      ∀ o ∈ (save_grow pool dst n).2.outcomes, o = true := by
  have key := ngx_create_temp_buf_ok pool (grow_size (pool.heap dst) n) h
  unfold grow_size at key
  unfold save_grow
  simp only []
  split
  · rename_i pool1 heq
    rw [heq] at key
    simp at key
  · rename_i tmp pool1 heq
    rw [heq] at key
    exact key

/-- When no allocation fails, the loop of `save` adds the unread byte counts
of all chunks to `bytes` and leaves every chunk consumed. -/
theorem save_loop_total (cl : List ngx_buf_t) :
    ∀ (pool : ngx_pool_t) (dst : Nat) (bytes : Int),
      (∀ o ∈ pool.outcomes, o = true) →
      (∀ c ∈ cl, c.pos ≤ c.last) →
      0 ≤ bytes →
      bytes + unread cl < 2 ^ 63 →
      (save_loop cl pool dst bytes).1 = bytes + unread cl ∧
      (save_loop cl pool dst bytes).2.1 = cl.map (fun c => { c with pos := c.last }) := by
  induction cl with
  | nil =>
    intro pool dst bytes _ _ _ _
    simp [save_loop, unread]
  | cons src cl ih =>
    intro pool dst bytes hok hwf h0 hsum
    have hsrc : src.pos ≤ src.last := hwf src (List.mem_cons_self _ _)
    simp only [unread, Nat.cast_add] at hsum
    have hn : ptr_diff src.last src.pos = src.last - src.pos :=
      ptr_diff_of_le hsrc (by omega)
    have hb : to_ngx_int_t (bytes + ((src.last - src.pos : Nat) : Int))
        = bytes + ((src.last - src.pos : Nat) : Int) :=
      to_ngx_int_t_of_range (by omega) (by omega)
    have hpos : src.pos + (src.last - src.pos) = src.last := by omega
    by_cases hfit : ptr_diff src.last src.pos
        > ptr_diff (pool.heap dst).end_ (pool.heap dst).last
    · obtain ⟨g1, g2⟩ := save_grow_ok pool dst (ptr_diff src.last src.pos) hok
      rw [save_loop_cons_grow src cl pool dst bytes pool.brk hfit g1, hn, hb]
      rw [hn] at g2
      obtain ⟨i1, i2⟩ := ih
        (save_copy (save_grow pool dst (src.last - src.pos)).2 pool.brk src
          (src.last - src.pos))
        pool.brk (bytes + ((src.last - src.pos : Nat) : Int)) g2
        (fun c hc => hwf c (List.mem_cons_of_mem _ hc)) (by omega) (by omega)
      refine ⟨?_, ?_⟩
      · simp only [i1, unread, Nat.cast_add]; omega
      · simp only [i2, List.map_cons, hpos]
    · rw [save_loop_cons_fits src cl pool dst bytes hfit, hn, hb]
      obtain ⟨i1, i2⟩ := ih (save_copy pool dst src (src.last - src.pos))
        dst (bytes + ((src.last - src.pos : Nat) : Int)) hok
        (fun c hc => hwf c (List.mem_cons_of_mem _ hc)) (by omega) (by omega)
      refine ⟨?_, ?_⟩
      · simp only [i1, unread, Nat.cast_add]; omega
      · simp only [i2, List.map_cons, hpos]

/-- C4: when no allocation fails, `save` on a request with a body holder whose
chunks are well formed (`pos <= last`, fewer than `2 ^ 63` unread bytes in
all) returns exactly the sum of the chunks' unread byte counts and leaves
every chunk's read cursor at its end; on a request without a body holder it
returns 0 and leaves the request as it is. -/
theorem save_returns_total (bufs : ngx_chain_t) (r : ngx_http_request_t) :
    (r.request_body = none → ∀ b, save b r = some (0, r)) ∧
    (∀ rb, r.request_body = some rb →
      (∀ o ∈ r.pool.outcomes, o = true) →
      (∀ c ∈ rb.busy, c.pos ≤ c.last) →
      unread rb.busy < 2 ^ 63 →
      ∃ r' rb', save (some bufs) r = some ((unread rb.busy : Int), r') ∧
        r'.request_body = some rb' ∧
        rb'.busy = rb.busy.map (fun c => { c with pos := c.last }) ∧
        ∀ c ∈ rb'.busy, c.pos = c.last) := by
  constructor
  · intro h b
    simp [save, h]
  · intro rb hrb hok hwf hsum
    obtain ⟨h1, h2⟩ := save_loop_total rb.busy r.pool bufs.buf 0 hok hwf (le_refl _)
      (by omega)
    refine ⟨{ r with
        request_body := some { rb with busy := (save_loop rb.busy r.pool bufs.buf 0).2.1 },
        pool := (save_loop rb.busy r.pool bufs.buf 0).2.2 },
      { rb with busy := (save_loop rb.busy r.pool bufs.buf 0).2.1 }, ?_, rfl, h2, ?_⟩
    · simp only [save, hrb, h1]
      simp
    · intro c hc
      simp only [] at hc
      rw [h2] at hc
      obtain ⟨c', _, rfl⟩ := List.mem_map.mp hc
      rfl

/-- An instance of `save_returns_total` in which growth occurs: 6 unread bytes
in two chunks, an accumulator of capacity 4. -/
theorem save_returns_total_witness :
    ∃ r' rb', save (some small_accumulator.1) growth_request
        = some ((unread [chunk_of [1, 2, 3], chunk_of [4, 5, 6]] : Int), r') ∧
      r'.request_body = some rb' ∧
      rb'.busy = [chunk_of [1, 2, 3], chunk_of [4, 5, 6]].map
        (fun c => { c with pos := c.last }) ∧
      ∀ c ∈ rb'.busy, c.pos = c.last :=
  (save_returns_total small_accumulator.1 growth_request).2
    { bufs := none, busy := [chunk_of [1, 2, 3], chunk_of [4, 5, 6]] } rfl
    (by decide) (by decide) (by decide)

/-! ## The drain step: chunks already consumed -/

theorem save_copy_zero (pool : ngx_pool_t) (dst : Nat) (src : ngx_buf_t) :
    save_copy pool dst src 0 = pool := by
  unfold save_copy
  simp only [memcpy_zero, Nat.add_zero]
  cases pool
  simp

/-- On chunks without unread bytes the loop of `save` changes nothing. -/
theorem save_loop_noop (cl : List ngx_buf_t) :
    ∀ (pool : ngx_pool_t) (dst : Nat) (bytes : Int),
      (∀ c ∈ cl, ptr_diff c.last c.pos = 0) →
      -2 ^ 63 ≤ bytes → bytes < 2 ^ 63 →
      save_loop cl pool dst bytes = (bytes, cl, pool) := by
  induction cl with
  | nil =>
    intro pool dst bytes _ _ _
    rfl
  | cons src cl ih =>
    intro pool dst bytes hz h1 h2
    have hn : ptr_diff src.last src.pos = 0 := hz src (List.mem_cons_self _ _)
    have hfit : ¬ ptr_diff src.last src.pos
        > ptr_diff (pool.heap dst).end_ (pool.heap dst).last := by
      rw [hn]; exact Nat.not_lt_zero _
    rw [save_loop_cons_fits src cl pool dst bytes hfit, hn, save_copy_zero]
    have hb : to_ngx_int_t (bytes + ((0 : Nat) : Int)) = bytes := by
      rw [to_ngx_int_t_of_range (by omega) (by omega)]; simp
    rw [hb, ih pool dst bytes (fun c hc => hz c (List.mem_cons_of_mem _ hc)) h1 h2]
    rfl

/-- When the loop of `save` returns a non-negative value, it has left every
chunk without unread bytes. -/
theorem save_loop_drained (cl : List ngx_buf_t) :
    ∀ (pool : ngx_pool_t) (dst : Nat) (bytes : Int),
      0 ≤ (save_loop cl pool dst bytes).1 →
      ∀ c ∈ (save_loop cl pool dst bytes).2.1, ptr_diff c.last c.pos = 0 := by
  induction cl with
  | nil =>
    intro pool dst bytes _ c hc
    simp [save_loop] at hc
  | cons src cl ih =>
    intro pool dst bytes h0 c hc
    by_cases hfit : ptr_diff src.last src.pos
        > ptr_diff (pool.heap dst).end_ (pool.heap dst).last
    · cases hg : (save_grow pool dst (ptr_diff src.last src.pos)).1 with
      | none =>
        rw [save_loop_cons_fail src cl pool dst bytes hfit hg] at h0
        simp [NGX_ERROR] at h0
      | some tmp =>
        rw [save_loop_cons_grow src cl pool dst bytes tmp hfit hg] at h0 hc
        rcases List.mem_cons.mp hc with rfl | hc'
        · exact ptr_diff_advance _ _
        · exact ih _ _ _ h0 c hc'
    · rw [save_loop_cons_fits src cl pool dst bytes hfit] at h0 hc
      rcases List.mem_cons.mp hc with rfl | hc'
      · exact ptr_diff_advance _ _
      · exact ih _ _ _ h0 c hc'

/-- The drain on a request with a body holder, as the loop over `rb->busy`. -/
theorem save_eq (bufs : ngx_chain_t) (r : ngx_http_request_t)
    (rb : ngx_http_request_body_t) (h : r.request_body = some rb) :
    save (some bufs) r =
      some ((save_loop rb.busy r.pool bufs.buf 0).1,
        { r with
            request_body := some { rb with busy := (save_loop rb.busy r.pool bufs.buf 0).2.1 },
            pool := (save_loop rb.busy r.pool bufs.buf 0).2.2 }) := by
  simp [save, h]

/-- The drain on chunks without unread bytes returns 0 and changes nothing. -/
theorem save_noop (bufs : ngx_chain_t) (r : ngx_http_request_t)
    (rb : ngx_http_request_body_t) (h : r.request_body = some rb)
    (hz : ∀ c ∈ rb.busy, ptr_diff c.last c.pos = 0) :
    save (some bufs) r = some (0, r) := by
  rw [save_eq bufs r rb h, save_loop_noop rb.busy r.pool bufs.buf 0 hz (by omega) (by omega)]
  cases r
  simp only [] at h
  subst h
  rfl

/-- C5 (counterexample): a chunk of 6 bytes waits for an accumulator of
capacity 4 and the first allocation fails.  The first `save` returns
`NGX_ERROR`; the second one, run right after it with no new bytes, returns 6,
not 0. -/
theorem save_again_after_failure :
    ((save (some retry_request.1) retry_request.2).bind fun res1 =>
      (save (some retry_request.1) res1.2).map fun res2 => (res1.1, res2.1))
      = some (NGX_ERROR, 6) := by
  decide

/-- C5 (amended): if no chunk of the source sequence has unread bytes
(`pos = last`), `save` returns 0 and leaves the whole request, accumulator and
pool included, as it was, whatever the remaining capacity; and for every
state in which a first `save` does not fail, a second `save` right after it
returns 0 and leaves the state, hence the accumulator, as the first left
it. -/
theorem save_twice (bufs : ngx_chain_t) (r : ngx_http_request_t) :
    (∀ rb, r.request_body = some rb → (∀ c ∈ rb.busy, c.pos = c.last) →
      save (some bufs) r = some (0, r)) ∧
    (∀ n r1, save (some bufs) r = some (n, r1) → 0 ≤ n →
      save (some bufs) r1 = some (0, r1)) := by
  constructor
  · intro rb hrb hz
    exact save_noop bufs r rb hrb (fun c hc => by rw [hz c hc]; exact ptr_diff_self _)
  · intro n r1 hs hn
    cases hrb : r.request_body with
    | none =>
      simp only [save, hrb, Option.some.injEq, Prod.mk.injEq] at hs
      obtain ⟨_, rfl⟩ := hs
      simp [save, hrb]
    | some rb =>
      rw [save_eq bufs r rb hrb] at hs
      simp only [Option.some.injEq, Prod.mk.injEq] at hs
      obtain ⟨rfl, rfl⟩ := hs
      exact save_noop bufs _ _ rfl (save_loop_drained rb.busy r.pool bufs.buf 0 hn)

/-- An instance of `save_twice`: the first `save` on 6 unread bytes and an
accumulator of capacity 4 succeeds, the second one returns 0 and changes
nothing. -/
theorem save_twice_witness :
    ∃ n r1, save (some small_accumulator.1) growth_request = some (n, r1) ∧ 0 ≤ n ∧
      save (some small_accumulator.1) r1 = some (0, r1) :=
  ⟨_, _, save_eq small_accumulator.1 growth_request _ rfl, by decide,
    (save_twice small_accumulator.1 growth_request).2 _ _
      (save_eq small_accumulator.1 growth_request _ rfl) (by decide)⟩

/-! ## The capacity estimator -/

/-- C6: `body_size` depends on the chunked flag, the declared content length
and the configured `client_max_body_size` only.  For a request that is not
chunked it is the declared length (a non-negative `off_t`), zero included, and
the ceiling has no influence; for a chunked request it is the ceiling (a
non-negative `off_t`) when that is not zero and 1048576 when it is zero. -/
theorem body_size_spec (r : ngx_http_request_t) :
    (∀ r2 : ngx_http_request_t, r2.headers_in.chunked = r.headers_in.chunked →
      r2.headers_in.content_length_n = r.headers_in.content_length_n →
      r2.clcf.client_max_body_size = r.clcf.client_max_body_size →
      body_size r2 = body_size r) ∧
    (r.headers_in.chunked = false →
      (0 ≤ r.headers_in.content_length_n → r.headers_in.content_length_n < 2 ^ 63 →
        (body_size r : Int) = r.headers_in.content_length_n) ∧
      ∀ c, body_size { r with clcf := c } = body_size r) ∧
    (r.headers_in.chunked = true → r.clcf.client_max_body_size ≠ 0 →
      0 ≤ r.clcf.client_max_body_size → r.clcf.client_max_body_size < 2 ^ 63 →
      (body_size r : Int) = r.clcf.client_max_body_size) ∧
    (r.headers_in.chunked = true → r.clcf.client_max_body_size = 0 →
      body_size r = 1048576) := by
  refine ⟨?_, ?_, ?_, ?_⟩
  · intro r2 h1 h2 h3
    simp only [body_size, h1, h2, h3]
  · intro h
    refine ⟨?_, ?_⟩
    · intro h0 h1
      simp only [body_size, h, to_size_t]
      simp only [Bool.not_false, if_true]
      omega
    · intro c
      simp [body_size, h]
  · intro h hne h0 h1
    simp only [body_size, h, to_size_t]
    simp only [Bool.not_true, ne_eq, hne, not_false_eq_true, if_true]
    simp only [Bool.false_eq_true, if_false]
    omega
  · intro h h0
    simp [body_size, h, h0]

/-- Instances of `body_size_spec`: a declared length of 10 and of 0, a chunked
request under a ceiling of 4, and a chunked request without ceiling. -/
theorem body_size_spec_witness :
    (body_size request_10 : Int) = 10 ∧
    (body_size blank_request : Int) = 0 ∧
    (body_size small_accumulator.2 : Int) = 4 ∧
    body_size { blank_request with
      headers_in := { chunked := true, content_length_n := -1 } } = 1048576 :=
  ⟨((body_size_spec request_10).2.1 rfl).1 (by decide) (by decide),
   ((body_size_spec blank_request).2.1 rfl).1 (by decide) (by decide),
   (body_size_spec small_accumulator.2).2.2.1 rfl (by decide) (by decide) (by decide),
   (body_size_spec _).2.2.2 rfl rfl⟩

/-! ## The read-drive loop: one iteration -/

/-- The drain changes the chunk chain and the pool only. -/
theorem save_frame (b : Option ngx_chain_t) (r r' : ngx_http_request_t) (n : Int)
    (h : save b r = some (n, r')) :
    r' = { r with request_body := r'.request_body, pool := r'.pool } ∧
      r'.request_body.isSome = r.request_body.isSome := by
  unfold save at h
  split at h
  · rename_i hrb
    simp only [Option.some.injEq, Prod.mk.injEq] at h
    obtain ⟨_, rfl⟩ := h
    exact ⟨rfl, rfl⟩
  · rename_i rb hrb
    split at h
    · exact absurd h (by simp)
    · simp only [Option.some.injEq, Prod.mk.injEq] at h
      obtain ⟨_, rfl⟩ := h
      exact ⟨rfl, by simp [hrb]⟩

/-- The read primitive appends itself to the call log. -/
theorem read_calls (r : ngx_http_request_t) :
    (ngx_http_read_unbuffered_request_body r).2.calls
      = r.calls ++ [call_t.ngx_http_read_unbuffered_request_body] := by
  unfold ngx_http_read_unbuffered_request_body
  simp only []
  split <;> rfl

/-- The state the terminal branches of `do_read` build first. -/
theorem do_read_done_eq (r : ngx_http_request_t) (ctx : ngx_http_read_request_body_ctx_t)
    (rb : ngx_http_request_body_t) (h : r.request_body = some rb) :
    do_read_done r ctx =
      some { r with read_event_handler := handler_t.ngx_http_block_reading,
                    ctx := some { ctx with done := true },
                    request_body := some { rb with bufs := ctx.bufs } } := by
  simp [do_read_done, h]

/-- One iteration of the loop of `do_read`, given the result of the drain. -/
theorem do_read_loop_succ (fuel : Nat) (r : ngx_http_request_t)
    (ctx : ngx_http_read_request_body_ctx_t) (bytes : Int) (r2 : ngx_http_request_t)
    (hs : save ctx.bufs (ngx_http_read_unbuffered_request_body r).2 = some (bytes, r2)) :
    do_read_loop (fuel + 1) r ctx =
      if bytes < 0 ∨ (ngx_http_read_unbuffered_request_body r).1 = NGX_ERROR then
        (do_read_done r2 ctx).map fun r =>
          ngx_http_finalize_request r NGX_HTTP_INTERNAL_SERVER_ERROR
      else if (ngx_http_read_unbuffered_request_body r).1 = NGX_OK then
        (do_read_done r2 ctx).map fun r =>
          ngx_http_core_run_phases (if r.nginx_version ≥ 8011 then count_decrement r else r)
      else if (ngx_http_read_unbuffered_request_body r).1 ≥ NGX_HTTP_SPECIAL_RESPONSE then
        (do_read_done r2 ctx).map fun r3 =>
          ngx_http_finalize_request r3 (ngx_http_read_unbuffered_request_body r).1
      else if bytes > 0 then
        do_read_loop fuel r2 ctx
      else
        some r2 := by
  rw [do_read_loop]
  simp only [hs]

/-- C7: in an iteration of `do_read`, let `rc` be the result of the read
primitive and `(bytes, r2)` the result of the drain run on the state the
primitive left, whatever `rc` is.  If `bytes < 0` or `rc = NGX_ERROR`, the
loop ends and the request is finalized with 500, after this one call of the
read primitive, whatever else `rc` says.  Otherwise, if `rc = NGX_OK`, the
loop ends in the pipeline re-entry and nothing is finalized.  Otherwise, if
`rc >= NGX_HTTP_SPECIAL_RESPONSE`, the loop ends and the request is finalized
with exactly `rc`.  In each case the pool and the chunks are those the drain
left; in the remaining case the loop goes on, or returns, with the state the
drain left. -/
theorem do_read_outcome (fuel : Nat) (r : ngx_http_request_t)
    (ctx : ngx_http_read_request_body_ctx_t) (bytes : Int) (r2 : ngx_http_request_t)
    (rb : ngx_http_request_body_t)
    (hs : save ctx.bufs (ngx_http_read_unbuffered_request_body r).2 = some (bytes, r2))
    (hrb : r2.request_body = some rb) :
    (bytes < 0 ∨ (ngx_http_read_unbuffered_request_body r).1 = NGX_ERROR →
      ∃ r3, do_read_loop (fuel + 1) r ctx = some r3 ∧
        r3.calls = r.calls ++ [call_t.ngx_http_read_unbuffered_request_body,
          call_t.ngx_http_finalize_request NGX_HTTP_INTERNAL_SERVER_ERROR] ∧
        r3.pool = r2.pool ∧ r3.request_body = some { rb with bufs := ctx.bufs }) ∧
    (¬ (bytes < 0 ∨ (ngx_http_read_unbuffered_request_body r).1 = NGX_ERROR) →
      (ngx_http_read_unbuffered_request_body r).1 = NGX_OK →
      ∃ r3, do_read_loop (fuel + 1) r ctx = some r3 ∧
        r3.calls = r.calls ++ [call_t.ngx_http_read_unbuffered_request_body,
          call_t.ngx_http_core_run_phases] ∧
        r3.pool = r2.pool ∧ r3.request_body = some { rb with bufs := ctx.bufs }) ∧
    (¬ (bytes < 0 ∨ (ngx_http_read_unbuffered_request_body r).1 = NGX_ERROR) →
      (ngx_http_read_unbuffered_request_body r).1 ≠ NGX_OK →
      (ngx_http_read_unbuffered_request_body r).1 ≥ NGX_HTTP_SPECIAL_RESPONSE →
      ∃ r3, do_read_loop (fuel + 1) r ctx = some r3 ∧
        r3.calls = r.calls ++ [call_t.ngx_http_read_unbuffered_request_body,
          call_t.ngx_http_finalize_request (ngx_http_read_unbuffered_request_body r).1] ∧
        r3.pool = r2.pool ∧ r3.request_body = some { rb with bufs := ctx.bufs }) ∧
    (¬ (bytes < 0 ∨ (ngx_http_read_unbuffered_request_body r).1 = NGX_ERROR) →
      (ngx_http_read_unbuffered_request_body r).1 ≠ NGX_OK →
      ¬ (ngx_http_read_unbuffered_request_body r).1 ≥ NGX_HTTP_SPECIAL_RESPONSE →
      do_read_loop (fuel + 1) r ctx
        = if bytes > 0 then do_read_loop fuel r2 ctx else some r2) := by
  have hc : r2.calls = r.calls ++ [call_t.ngx_http_read_unbuffered_request_body] := by
    rw [(save_frame _ _ _ _ hs).1]
    exact read_calls r
  rw [do_read_loop_succ fuel r ctx bytes r2 hs, do_read_done_eq r2 ctx rb hrb]
  refine ⟨?_, ?_, ?_, ?_⟩
  · intro h
    rw [if_pos h]
    exact ⟨_, rfl, by simp [ngx_http_finalize_request, hc], rfl, rfl⟩
  · intro h hok
    rw [if_neg h, if_pos hok]
    refine ⟨_, rfl, ?_, ?_, ?_⟩
    · simp only [Option.map_some', ngx_http_core_run_phases]
      split <;> simp [count_decrement, hc]
    · simp only [ngx_http_core_run_phases]
      split <;> rfl
    · simp only [ngx_http_core_run_phases]
      split <;> rfl
  · intro h hok hsp
    rw [if_neg h, if_neg hok, if_pos hsp]
    exact ⟨_, rfl, by simp [ngx_http_finalize_request, hc], rfl, rfl⟩
  · intro h hok hsp
    rw [if_neg h, if_neg hok, if_neg hsp]

/-- Scenario D as an instance of `do_read_outcome`: the first read reports 413
without chunks, and the request is finalized with status 413. -/
theorem do_read_outcome_witness :
    ∃ r3, do_read_loop (0 + 1) scenario_d.2 scenario_d.1 = some r3 ∧
      r3.calls = scenario_d.2.calls ++ [call_t.ngx_http_read_unbuffered_request_body,
        call_t.ngx_http_finalize_request (ngx_http_read_unbuffered_request_body scenario_d.2).1] ∧
      r3.pool = (ngx_http_read_unbuffered_request_body scenario_d.2).2.pool ∧
      r3.request_body = some { bufs := scenario_d.1.bufs, busy := [] } :=
  (do_read_outcome 0 scenario_d.2 scenario_d.1 0
      (ngx_http_read_unbuffered_request_body scenario_d.2).2 { bufs := none, busy := [] }
      rfl rfl).2.2.1
    (by decide) (by decide) (by decide)

/-! ## The read-drive loop: enough iterations -/

/-- The read primitive changes the call log, its script and the chunk chain
only. -/
theorem read_frame (r : ngx_http_request_t) :
    (ngx_http_read_unbuffered_request_body r).2 =
      { r with calls := r.calls ++ [call_t.ngx_http_read_unbuffered_request_body],
               reads := r.reads.tail,
               request_body := (ngx_http_read_unbuffered_request_body r).2.request_body } ∧
    (ngx_http_read_unbuffered_request_body r).2.request_body.isSome
      = r.request_body.isSome := by
  unfold ngx_http_read_unbuffered_request_body
  simp only []
  split
  · rename_i h
    simp only [h, List.tail_nil, and_self]
  · rename_i e rest h
    simp only [h, List.tail_cons, Option.isSome_map', and_self]

/-- With its script used up the read primitive reports `NGX_AGAIN` and only
logs the call. -/
theorem read_exhausted (r : ngx_http_request_t) (h : r.reads = []) :
    ngx_http_read_unbuffered_request_body r =
      (NGX_AGAIN,
       { r with calls := r.calls ++ [call_t.ngx_http_read_unbuffered_request_body] }) := by
  unfold ngx_http_read_unbuffered_request_body
  simp only [h]

/-- No chunk of the request has unread bytes. -/
theorem save_drained (b : Option ngx_chain_t) (r r2 : ngx_http_request_t) (n : Int)
    (h : save b r = some (n, r2)) (hn : 0 ≤ n) :
    ∀ rb, r2.request_body = some rb → ∀ c ∈ rb.busy, ptr_diff c.last c.pos = 0 := by
  unfold save at h
  split at h
  · rename_i hrb
    simp only [Option.some.injEq, Prod.mk.injEq] at h
    obtain ⟨_, rfl⟩ := h
    intro rb hrb'
    rw [hrb] at hrb'
    exact absurd hrb' (by simp)
  · rename_i rb hrb
    split at h
    · exact absurd h (by simp)
    · rename_i bufs
      simp only [Option.some.injEq, Prod.mk.injEq] at h
      obtain ⟨rfl, rfl⟩ := h
      intro rb' hrb'
      simp only [Option.some.injEq] at hrb'
      subst hrb'
      exact save_loop_drained rb.busy r.pool bufs.buf 0 hn

/-- On a request without unread bytes the drain, if defined, returns 0 and
changes nothing. -/
theorem save_idle (b : Option ngx_chain_t) (r : ngx_http_request_t)
    (hd : ∀ rb, r.request_body = some rb → ∀ c ∈ rb.busy, ptr_diff c.last c.pos = 0) :
    save b r = none ∨ save b r = some (0, r) := by
  match hrb : r.request_body, b with
  | none, _ => right; simp [save, hrb]
  | some rb, none => left; simp [save, hrb]
  | some rb, some bufs => right; exact save_noop bufs r rb hrb (hd rb hrb)

/-- Once the script of the read primitive is used up and no chunk has unread
bytes, one iteration ends the loop of `do_read`. -/
theorem do_read_loop_idle (ctx : ngx_http_read_request_body_ctx_t) (r : ngx_http_request_t)
    (hreads : r.reads = [])
    (hd : ∀ rb, r.request_body = some rb → ∀ c ∈ rb.busy, ptr_diff c.last c.pos = 0)
    (fuel : Nat) :
    do_read_loop (fuel + 1) r ctx = do_read_loop 1 r ctx := by
  have key : ∀ f, do_read_loop (f + 1) r ctx =
      match save ctx.bufs
        { r with calls := r.calls ++ [call_t.ngx_http_read_unbuffered_request_body] } with
      | none => none
      | some _ =>
        some { r with calls := r.calls ++ [call_t.ngx_http_read_unbuffered_request_body] } := by
    intro f
    rw [do_read_loop, read_exhausted r hreads]
    simp only []
    rcases save_idle ctx.bufs
      { r with calls := r.calls ++ [call_t.ngx_http_read_unbuffered_request_body] } hd
      with h | h
    · rw [h]
    · rw [h]
      simp [NGX_AGAIN, NGX_ERROR, NGX_OK, NGX_HTTP_SPECIAL_RESPONSE]
  rw [key fuel, key 0]

/-- The loop of `do_read` needs at most two iterations more than the script of
the read primitive has results: more fuel does not change its result. -/
theorem do_read_loop_fuel (ctx : ngx_http_read_request_body_ctx_t) :
    ∀ (k : Nat) (r : ngx_http_request_t), r.reads.length = k →
      ∀ fuel, k + 2 ≤ fuel → do_read_loop fuel r ctx = do_read_loop (k + 2) r ctx := by
  intro k
  induction k with
  | zero =>
    intro r hk fuel hf
    obtain ⟨f, rfl⟩ : ∃ f, fuel = f + 1 + 1 := ⟨fuel - 2, by omega⟩
    have hreads : r.reads = [] := List.length_eq_zero.mp hk
    cases hs : save ctx.bufs (ngx_http_read_unbuffered_request_body r).2 with
    | none =>
      rw [do_read_loop, do_read_loop]
      simp only [hs]
    | some res =>
      obtain ⟨bytes, r2⟩ := res
      rw [do_read_loop_succ (f + 1) r ctx bytes r2 hs, do_read_loop_succ 1 r ctx bytes r2 hs]
      by_cases hb : bytes > 0
      · have hr2 : r2.reads = [] := by
          rw [(save_frame _ _ _ _ hs).1, (read_frame r).1]
          simp [hreads]
        have hd := save_drained _ _ _ _ hs (by omega)
        rw [do_read_loop_idle ctx r2 hr2 hd f]
      · simp only [if_neg hb]
  | succ k ih =>
    intro r hk fuel hf
    obtain ⟨f, rfl⟩ : ∃ f, fuel = f + 1 := ⟨fuel - 1, by omega⟩
    cases hs : save ctx.bufs (ngx_http_read_unbuffered_request_body r).2 with
    | none =>
      rw [do_read_loop, do_read_loop]
      simp only [hs]
    | some res =>
      obtain ⟨bytes, r2⟩ := res
      rw [do_read_loop_succ f r ctx bytes r2 hs, do_read_loop_succ (k + 2) r ctx bytes r2 hs]
      have hr2 : r2.reads.length = k := by
        rw [(save_frame _ _ _ _ hs).1, (read_frame r).1]
        simp [hk]
      rw [ih r2 hr2 f (by omega)]

/-! ## The read-drive loop: how it ends -/

/-- The state a terminal branch of `do_read` builds before it calls nginx has
the completion flag set, the blocking read handler installed and the
accumulator chain attached to the body holder. -/
theorem do_read_done_spec (r r' : ngx_http_request_t)
    (ctx : ngx_http_read_request_body_ctx_t) (h : do_read_done r ctx = some r') :
    r'.read_event_handler = handler_t.ngx_http_block_reading ∧
      r'.ctx = some { ctx with done := true } ∧
      (∃ rb : ngx_http_request_body_t, r'.request_body = some { rb with bufs := ctx.bufs }) ∧
      r'.calls = r.calls ∧ r'.pool = r.pool := by
  unfold do_read_done at h
  split at h
  · exact absurd h (by simp)
  · rename_i rb hrb
    simp only [Option.some.injEq] at h
    subst h
    exact ⟨rfl, rfl, ⟨rb, rfl⟩, rfl, rfl⟩

/-- The pipeline re-entry of `do_read`, with the version-dependent decrement of
the counter, changes the counter and the call log only. -/
theorem run_phases_fields (r : ngx_http_request_t) :
    (ngx_http_core_run_phases
        (if r.nginx_version ≥ 8011 then count_decrement r else r)).read_event_handler
      = r.read_event_handler ∧
    (ngx_http_core_run_phases
        (if r.nginx_version ≥ 8011 then count_decrement r else r)).ctx = r.ctx ∧
    (ngx_http_core_run_phases
        (if r.nginx_version ≥ 8011 then count_decrement r else r)).request_body
      = r.request_body ∧
    (ngx_http_core_run_phases
        (if r.nginx_version ≥ 8011 then count_decrement r else r)).pool = r.pool ∧
    (ngx_http_core_run_phases
        (if r.nginx_version ≥ 8011 then count_decrement r else r)).calls
      = r.calls ++ [call_t.ngx_http_core_run_phases] := by
  by_cases h : r.nginx_version ≥ 8011 <;>
    simp [h, ngx_http_core_run_phases, count_decrement]

/-- The loop of `do_read` either ends in a terminal branch, with the
completion flag set, the blocking read handler installed and the accumulator
chain attached, or returns after a drain that moved nothing, with the context
and the read handler as they were and only calls of the read primitive
logged. -/
theorem do_read_loop_result (ctx : ngx_http_read_request_body_ctx_t) (fuel : Nat) :
    ∀ (r r' : ngx_http_request_t), do_read_loop fuel r ctx = some r' →
      (r'.read_event_handler = handler_t.ngx_http_block_reading ∧
        r'.ctx = some { ctx with done := true } ∧
        ∃ rb : ngx_http_request_body_t, r'.request_body = some { rb with bufs := ctx.bufs }) ∨
      (r'.read_event_handler = r.read_event_handler ∧ r'.ctx = r.ctx ∧
        ∃ k, r'.calls = r.calls
          ++ List.replicate (k + 1) call_t.ngx_http_read_unbuffered_request_body) := by
  induction fuel with
  | zero =>
    intro r r' h
    simp [do_read_loop] at h
  | succ fuel ih =>
    intro r r' h
    cases hs : save ctx.bufs (ngx_http_read_unbuffered_request_body r).2 with
    | none =>
      rw [do_read_loop] at h
      simp only [hs] at h
      exact absurd h (by simp)
    | some res =>
      obtain ⟨bytes, r2⟩ := res
      rw [do_read_loop_succ fuel r ctx bytes r2 hs] at h
      have hf := (save_frame _ _ _ _ hs).1
      have hp := (read_frame r).1
      have h2h : r2.read_event_handler = r.read_event_handler := by rw [hf, hp]
      have h2c : r2.ctx = r.ctx := by rw [hf, hp]
      have h2l : r2.calls = r.calls ++ [call_t.ngx_http_read_unbuffered_request_body] := by
        rw [hf, hp]
      by_cases c1 : bytes < 0 ∨ (ngx_http_read_unbuffered_request_body r).1 = NGX_ERROR
      · rw [if_pos c1] at h
        obtain ⟨r3, h3, rfl⟩ := Option.map_eq_some'.mp h
        obtain ⟨a, b, c, _, _⟩ := do_read_done_spec r2 r3 ctx h3
        exact Or.inl ⟨a, b, c⟩
      · rw [if_neg c1] at h
        by_cases c2 : (ngx_http_read_unbuffered_request_body r).1 = NGX_OK
        · rw [if_pos c2] at h
          obtain ⟨r3, h3, rfl⟩ := Option.map_eq_some'.mp h
          obtain ⟨a, b, c, _, _⟩ := do_read_done_spec r2 r3 ctx h3
          obtain ⟨q1, q2, q3, _, _⟩ := run_phases_fields r3
          left
          exact ⟨by rw [q1, a], by rw [q2, b], by rw [q3]; exact c⟩
        · rw [if_neg c2] at h
          by_cases c3 : (ngx_http_read_unbuffered_request_body r).1 ≥ NGX_HTTP_SPECIAL_RESPONSE
          · rw [if_pos c3] at h
            obtain ⟨r3, h3, rfl⟩ := Option.map_eq_some'.mp h
            obtain ⟨a, b, c, _, _⟩ := do_read_done_spec r2 r3 ctx h3
            exact Or.inl ⟨a, b, c⟩
          · rw [if_neg c3] at h
            by_cases c4 : bytes > 0
            · rw [if_pos c4] at h
              rcases ih r2 r' h with t | ⟨p1, p2, k, p3⟩
              · exact Or.inl t
              · right
                refine ⟨by rw [p1, h2h], by rw [p2, h2c], k + 1, ?_⟩
                rw [p3, h2l, List.append_assoc]
                rfl
            · rw [if_neg c4] at h
              simp only [Option.some.injEq] at h
              subst h
              exact Or.inr ⟨h2h, h2c, 0, h2l⟩

/-! ## The completion flag -/

/-- The loop of `do_read` never clears the completion flag. -/
theorem do_read_loop_flag (ctx : ngx_http_read_request_body_ctx_t) (fuel : Nat)
    (r r' : ngx_http_request_t) (h : do_read_loop fuel r ctx = some r')
    (hd : done_flag r = true) : done_flag r' = true := by
  rcases do_read_loop_result ctx fuel r r' h with ⟨_, t, _⟩ | ⟨_, p, _⟩
  · simp [done_flag, t]
  · simpa [done_flag, p] using hd

/-- No operation of the module clears the completion flag. -/
theorem run_op_flag (op : op_t) (r r' : ngx_http_request_t) (h : run_op op r = some r')
    (hd : done_flag r = true) : done_flag r' = true := by
  obtain ⟨ctx, hctx, hdone⟩ : ∃ ctx, r.ctx = some ctx ∧ ctx.done = true := by
    unfold done_flag at hd
    split at hd
    · rename_i ctx hctx
      exact ⟨ctx, hctx, hd⟩
    · exact absurd hd (by simp)
  cases op with
  | ngx_http_read_request_body_handler =>
    simp only [run_op, ngx_http_read_request_body_handler, hctx,
      ngx_http_read_request_body_handler_read, hdone] at h
    split at h <;> simp at h <;> subst h <;> exact hd
  | ngx_http_read_request_body_post_handler =>
    simp only [run_op, ngx_http_read_request_body_post_handler, hctx] at h
    split at h
    · split at h
      · simp only [Option.some.injEq] at h
        subst h
        simp [done_flag, ngx_http_finalize_request, hctx, hdone]
      · split at h
        · simp only [Option.some.injEq] at h
          subst h
          simp [done_flag, ngx_http_finalize_request, hdone]
        · split at h
          · exact absurd h (by simp)
          · rename_i b pool1 _ link pool2 _ bytes r2 hs
            have hf := (save_frame _ _ _ _ hs).1
            split at h
            · simp only [Option.some.injEq] at h
              subst h
              rw [hf]
              simp [done_flag, ngx_http_finalize_request, hdone]
            · refine do_read_loop_flag _ _ _ _ h ?_
              rw [hf]
              simp [done_flag, hdone]
    · simp only [Option.some.injEq] at h
      subst h
      have := (run_phases_fields { r with ctx := some { ctx with done := true } }).2.1
      simp only [done_flag]
      rw [this]
  | on_read =>
    simp only [run_op, on_read, hctx] at h
    exact do_read_loop_flag _ _ _ _ h hd
  | do_read =>
    simp only [run_op, hctx] at h
    exact do_read_loop_flag _ _ _ _ h hd

theorem flag_changes_all_true (l : List Bool) (h : ∀ b ∈ l, b = true) :
    flag_changes l = 0 := by
  induction l with
  | nil => rfl
  | cons a l ih =>
    cases l with
    | nil => rfl
    | cons b l =>
      have ha : a = true := h a (List.mem_cons_self _ _)
      have hb : b = true := h b (List.mem_cons_of_mem _ (List.mem_cons_self _ _))
      have := ih (fun x hx => h x (List.mem_cons_of_mem _ hx))
      simp only [flag_changes, ha, hb, if_true] at this ⊢
      omega

/-- Along a sequence of operations the completion flag, once true, stays true,
and it changes at most once. -/
theorem run_ops_flags (ops : List op_t) :
    ∀ (r : ngx_http_request_t) (states : List ngx_http_request_t),
      run_ops ops r = some states →
      (done_flag r = true → ∀ s ∈ states, done_flag s = true) ∧
      List.Pairwise (fun a b : Bool => a = true → b = true)
        (done_flag r :: states.map done_flag) ∧
      flag_changes (done_flag r :: states.map done_flag) ≤ 1 := by
  induction ops with
  | nil =>
    intro r states h
    simp only [run_ops, Option.some.injEq] at h
    subst h
    simp [flag_changes]
  | cons op ops ih =>
    intro r states h
    simp only [run_ops] at h
    split at h
    · exact absurd h (by simp)
    · rename_i r1 h1
      obtain ⟨st1, h2, rfl⟩ := Option.map_eq_some'.mp h
      obtain ⟨i1, i2, i3⟩ := ih r1 st1 h2
      have step := run_op_flag op r r1 h1
      have all : done_flag r = true → ∀ s ∈ r1 :: st1, done_flag s = true := by
        intro hd s hs
        rcases List.mem_cons.mp hs with rfl | hs'
        · exact step hd
        · exact i1 (step hd) s hs'
      refine ⟨all, ?_, ?_⟩
      · rw [List.map_cons, List.pairwise_cons]
        refine ⟨?_, i2⟩
        intro b hb hd
        obtain ⟨s, hs, rfl⟩ := List.mem_map.mp (by simpa using hb : b ∈ (r1 :: st1).map done_flag)
        exact all hd s hs
      · rw [List.map_cons]
        by_cases e : done_flag r = done_flag r1
        · simp only [flag_changes, e, if_true]
          omega
        · have hr1 : done_flag r1 = true := by
            cases hr : done_flag r with
            | true => exact absurd (step hr).symm (by rw [hr] at e; exact e)
            | false =>
              cases hr1 : done_flag r1 with
              | true => rfl
              | false => rw [hr, hr1] at e; exact absurd rfl e
          have z := flag_changes_all_true (done_flag r1 :: st1.map done_flag) (by
            intro b hb
            rcases List.mem_cons.mp hb with rfl | hb'
            · exact hr1
            · obtain ⟨s, hs, rfl⟩ := List.mem_map.mp hb'
              exact i1 hr1 s hs)
          simp only [flag_changes, e, if_false, z]
          omega

/-- C10: the completion flag is false while the request has no context and in
the context the rewrite handler creates; no operation of the module (rewrite
handler, post handler, `on_read`, `do_read`) changes it from true to false;
and along every sequence of operations on a request it stays true once it is
true, so it changes value at most once, from false to true. -/
theorem completion_flag_monotone :
    (∀ r : ngx_http_request_t, r.ctx = none → done_flag r = false) ∧
    (∀ r : ngx_http_request_t, r.rrbcf.read_request_body ≠ 0 → r.ctx = none →
      (ngx_pcalloc r.connection_pool).1 = true →
      ngx_http_read_request_body_handler r =
        ngx_http_read_request_body_handler_read
          { r with connection_pool := (ngx_pcalloc r.connection_pool).2,
                   ctx := some { bufs := none, done := false } }
          { bufs := none, done := false }) ∧
    (∀ (op : op_t) (r r' : ngx_http_request_t), run_op op r = some r' →
      done_flag r = true → done_flag r' = true) ∧
    (∀ (ops : List op_t) (r : ngx_http_request_t) (states : List ngx_http_request_t),
      run_ops ops r = some states →
      List.Pairwise (fun a b : Bool => a = true → b = true)
        (done_flag r :: states.map done_flag) ∧
      flag_changes (done_flag r :: states.map done_flag) ≤ 1) := by
  refine ⟨?_, ?_, run_op_flag, ?_⟩
  · intro r h
    simp [done_flag, h]
  · intro r hflag hctx halloc
    simp only [ngx_http_read_request_body_handler, if_neg hflag, hctx]
    split
    · rename_i cpool heq
      rw [heq] at halloc
      exact absurd halloc (by simp)
    · rename_i cpool heq
      rw [heq]
  · intro ops r states h
    exact (run_ops_flags ops r states h).2

/-- Scenario A as an instance of `completion_flag_monotone`: the rewrite
handler and two read events run on a request with a declared length of 10;
the flag is false, false, false and then true. -/
theorem completion_flag_monotone_witness :
    ∃ states,
      run_ops [op_t.ngx_http_read_request_body_handler, op_t.on_read, op_t.on_read]
        scenario_a_run = some states ∧
      done_flag scenario_a_run :: states.map done_flag = [false, false, false, true] ∧
      List.Pairwise (fun a b : Bool => a = true → b = true)
        (done_flag scenario_a_run :: states.map done_flag) ∧
      flag_changes (done_flag scenario_a_run :: states.map done_flag) ≤ 1 :=
  ⟨_, rfl, by decide,
    completion_flag_monotone.2.2.2
      [op_t.ngx_http_read_request_body_handler, op_t.on_read, op_t.on_read]
      scenario_a_run _ rfl⟩

/-! ## Terminal outcomes -/

/-- C8 (failing input): the post handler runs in the reading-body state and
the allocation of the initial buffer, of its chain link, or the allocation
inside the initial drain fails.  In each case the request is finalized with
500 while the completion flag stays false; the rewrite handler, run again on
such a request, does not decline but starts the body read again, and the
request is finalized a second time. -/
theorem post_handler_failure_leaves_flag :
    ([[false], [true, false], [true, true, false]].map fun outcomes =>
        (ngx_http_read_request_body_post_handler (post_failure_request outcomes)).map
          fun r => (done_flag r, r.calls))
      = [some (false, [call_t.ngx_http_finalize_request NGX_HTTP_INTERNAL_SERVER_ERROR]),
         some (false, [call_t.ngx_http_finalize_request NGX_HTTP_INTERNAL_SERVER_ERROR]),
         some (false, [call_t.ngx_http_finalize_request NGX_HTTP_INTERNAL_SERVER_ERROR])] ∧
    ((ngx_http_read_request_body_post_handler (post_failure_request [false, false])).bind
        fun r1 => (ngx_http_read_request_body_handler r1).map fun res => (res.1, res.2.calls))
      = some (NGX_DONE,
          [call_t.ngx_http_finalize_request NGX_HTTP_INTERNAL_SERVER_ERROR,
           call_t.ngx_http_read_client_request_body,
           call_t.ngx_http_finalize_request NGX_HTTP_INTERNAL_SERVER_ERROR]) := by
  decide

/-! ## Read events after completion -/

/-- C9 (counterexample): on a request whose completion flag is already true,
`on_read` calls the read primitive, runs the drain (the accumulator receives
the byte 7) and re-enters the pipeline. -/
theorem on_read_ignores_flag :
    done_flag done_request = true ∧
    (done_request.calls, accumulated small_accumulator.1 done_request) = ([], []) ∧
    (on_read done_request).map (fun r => (r.calls, accumulated small_accumulator.1 r))
      = some ([call_t.ngx_http_read_unbuffered_request_body,
               call_t.ngx_http_core_run_phases], [7]) := by
  decide

/-- Read-readiness notifications on a request whose read handler is the
blocking handler change nothing. -/
theorem read_events_blocked (k : Nat) (r : ngx_http_request_t)
    (h : r.read_event_handler = handler_t.ngx_http_block_reading) :
    read_events k r = some r := by
  induction k with
  | zero => rfl
  | succ k ih =>
    simp only [read_events, read_event, h, ngx_http_block_reading]
    exact ih

/-- C9 (amended): when `do_read`, run on the context of a request whose
completion flag was false, has set the flag, the read handler is
`ngx_http_block_reading`, and any number of later read-readiness
notifications, dispatched through `r->read_event_handler`, leave the request
as it is: no call of the read primitive, no drain, no finalization, no
pipeline re-entry. -/
theorem read_events_after_done (r r' : ngx_http_request_t)
    (ctx : ngx_http_read_request_body_ctx_t)
    (hctx : r.ctx = some ctx) (hd : ctx.done = false)
    (h : do_read r ctx = some r') (hflag : done_flag r' = true) :
    r'.read_event_handler = handler_t.ngx_http_block_reading ∧
      ∀ k, read_events k r' = some r' := by
  have hb : r'.read_event_handler = handler_t.ngx_http_block_reading := by
    rcases do_read_loop_result ctx _ r r' h with ⟨t, _, _⟩ | ⟨_, p, _⟩
    · exact t
    · rw [done_flag, p, hctx] at hflag
      simp only [hd] at hflag
      exact absurd hflag (by simp)
  exact ⟨hb, fun k => read_events_blocked k r' hb⟩

/-- Scenario D as an instance of `read_events_after_done`: after the request
was finalized with 413, three read events change nothing. -/
theorem read_events_after_done_witness :
    ∃ r', do_read scenario_d.2 scenario_d.1 = some r' ∧
      r'.read_event_handler = handler_t.ngx_http_block_reading ∧
      read_events 3 r' = some r' :=
  ⟨_, rfl,
    (read_events_after_done scenario_d.2 _ scenario_d.1 rfl rfl rfl (by decide)).1,
    (read_events_after_done scenario_d.2 _ scenario_d.1 rfl rfl rfl (by decide)).2 3⟩

/-! ## The read-drive loop returns -/

/-- With a non-NULL `bufs` the drain is defined. -/
theorem save_some (bufs : ngx_chain_t) (r : ngx_http_request_t) :
    ∃ bytes r2, save (some bufs) r = some (bytes, r2) := by
  cases hrb : r.request_body with
  | none => exact ⟨0, r, by simp [save, hrb]⟩
  | some rb => exact ⟨_, _, save_eq bufs r rb hrb⟩

/-- With a body holder and an accumulator chain in the context, `do_read`
returns: the iterations granted by its definition suffice. -/
theorem do_read_returns (ctx : ngx_http_read_request_body_ctx_t) (bufs : ngx_chain_t)
    (hb : ctx.bufs = some bufs) :
    ∀ (k : Nat) (r : ngx_http_request_t), r.reads.length = k →
      r.request_body.isSome = true → ∃ r', do_read_loop (k + 2) r ctx = some r' := by
  have terminal : ∀ (r2 : ngx_http_request_t) (f : ngx_http_request_t → ngx_http_request_t),
      r2.request_body.isSome = true → ∃ r', (do_read_done r2 ctx).map f = some r' := by
    intro r2 f h2
    obtain ⟨rb, hrb⟩ := Option.isSome_iff_exists.mp h2
    rw [do_read_done_eq r2 ctx rb hrb]
    exact ⟨_, rfl⟩
  have step : ∀ (fuel : Nat) (r : ngx_http_request_t), r.request_body.isSome = true →
      (∀ bytes r2, save ctx.bufs (ngx_http_read_unbuffered_request_body r).2 = some (bytes, r2) →
        bytes > 0 → ∃ r', do_read_loop fuel r2 ctx = some r') →
      ∃ r', do_read_loop (fuel + 1) r ctx = some r' := by
    intro fuel r hr hrec
    obtain ⟨bytes, r2, hs⟩ := save_some bufs (ngx_http_read_unbuffered_request_body r).2
    rw [← hb] at hs
    have h2 : r2.request_body.isSome = true := by
      rw [(save_frame _ _ _ _ hs).2, (read_frame r).2]
      exact hr
    rw [do_read_loop_succ fuel r ctx bytes r2 hs]
    split
    · exact terminal r2 _ h2
    · split
      · exact terminal r2 _ h2
      · split
        · exact terminal r2 _ h2
        · split
          · rename_i c4
            exact hrec bytes r2 hs c4
          · exact ⟨r2, rfl⟩
  intro k
  induction k with
  | zero =>
    intro r hk hr
    have hreads : r.reads = [] := List.length_eq_zero.mp hk
    apply step 1 r hr
    intro bytes r2 hs hpos
    have hr2 : r2.reads = [] := by
      rw [(save_frame _ _ _ _ hs).1, (read_frame r).1]
      simp [hreads]
    have h2 : r2.request_body.isSome = true := by
      rw [(save_frame _ _ _ _ hs).2, (read_frame r).2]
      exact hr
    apply step 0 r2 h2
    intro bytes3 r3 hs3 hpos3
    have hd := save_drained _ _ _ _ hs (by omega)
    rw [read_exhausted r2 hr2] at hs3
    rcases save_idle ctx.bufs
      { r2 with calls := r2.calls ++ [call_t.ngx_http_read_unbuffered_request_body] } hd
      with e | e
    · rw [e] at hs3
      exact absurd hs3 (by simp)
    · rw [e] at hs3
      simp only [Option.some.injEq, Prod.mk.injEq] at hs3
      omega
  | succ k ih =>
    intro r hk hr
    apply step (k + 2) r hr
    intro bytes r2 hs _
    have hr2 : r2.reads.length = k := by
      rw [(save_frame _ _ _ _ hs).1, (read_frame r).1]
      simp [hk]
    have h2 : r2.request_body.isSome = true := by
      rw [(save_frame _ _ _ _ hs).2, (read_frame r).2]
      exact hr
    exact ih r2 hr2 h2

/-! ## The rewrite handler declines -/

/-- C11: when the enable flag of the matched location is off, the rewrite
handler returns `NGX_DECLINED` and leaves the whole request as it is: no
context is allocated, the unbuffered mode is not set, no body read is started;
and any number of invocations in a row give the same result. -/
theorem handler_declines (r : ngx_http_request_t) (h : r.rrbcf.read_request_body = 0) :
    ngx_http_read_request_body_handler r = some (NGX_DECLINED, r) ∧
    ∀ k, run_ops (List.replicate k op_t.ngx_http_read_request_body_handler) r
      = some (List.replicate k r) := by
  have h1 : ngx_http_read_request_body_handler r = some (NGX_DECLINED, r) := by
    simp [ngx_http_read_request_body_handler, h]
  refine ⟨h1, ?_⟩
  intro k
  induction k with
  | zero => rfl
  | succ k ih =>
    simp only [List.replicate_succ, run_ops, run_op, h1, Option.map_some', ih]

/-- Scenario E as an instance of `handler_declines`: the flag is off, the
handler declines, three times in a row, and nothing was allocated. -/
theorem handler_declines_witness :
    (ngx_http_read_request_body_handler scenario_e = some (NGX_DECLINED, scenario_e) ∧
      ∀ k, run_ops (List.replicate k op_t.ngx_http_read_request_body_handler) scenario_e
        = some (List.replicate k scenario_e)) ∧
    (scenario_e.ctx, scenario_e.pool.requests, scenario_e.connection_pool.requests)
      = (none, [], []) :=
  ⟨handler_declines scenario_e (by decide), by decide⟩

/-! ## Configuration -/

/-- C13: a new location configuration has the flag unset; the directive
`read_request_body` sets it to 1; merging leaves the parent as it is and gives
the child its own value if that was set, otherwise the parent's value if that
was set, otherwise 0. -/
theorem merge_cf_spec (pool : ngx_pool_t) (prev conf : ngx_http_read_request_body_conf_t) :
    (∀ c, (ngx_http_read_request_body_create_cf pool).1 = some c →
      c.read_request_body = NGX_CONF_UNSET) ∧
    (ngx_http_read_request_body conf).read_request_body = 1 ∧
    (ngx_http_read_request_body_merge_cf prev conf).1 = prev ∧
    (conf.read_request_body ≠ NGX_CONF_UNSET →
      (ngx_http_read_request_body_merge_cf prev conf).2.read_request_body
        = conf.read_request_body) ∧
    (conf.read_request_body = NGX_CONF_UNSET → prev.read_request_body ≠ NGX_CONF_UNSET →
      (ngx_http_read_request_body_merge_cf prev conf).2.read_request_body
        = prev.read_request_body) ∧
    (conf.read_request_body = NGX_CONF_UNSET → prev.read_request_body = NGX_CONF_UNSET →
      (ngx_http_read_request_body_merge_cf prev conf).2.read_request_body = 0) := by
  refine ⟨?_, rfl, rfl, ?_, ?_, ?_⟩
  · intro c hc
    unfold ngx_http_read_request_body_create_cf at hc
    split at hc
    · exact absurd hc (by simp)
    · simp only [Option.some.injEq] at hc
      subst hc
      rfl
  · intro h
    simp [ngx_http_read_request_body_merge_cf, ngx_conf_merge_value, h]
  · intro h1 h2
    simp [ngx_http_read_request_body_merge_cf, ngx_conf_merge_value, h1, h2]
  · intro h1 h2
    simp [ngx_http_read_request_body_merge_cf, ngx_conf_merge_value, h1, h2]

/-- Instances of `merge_cf_spec`: a new configuration is unset; a child on
which the directive ran keeps 1 under an unset parent; an unset child inherits
1 from its parent; an unset child of an unset parent gets 0. -/
theorem merge_cf_spec_witness :
    (ngx_http_read_request_body_create_cf (empty_pool [])).1
      = some { read_request_body := NGX_CONF_UNSET } ∧
    (ngx_http_read_request_body_merge_cf { read_request_body := NGX_CONF_UNSET }
      (ngx_http_read_request_body { read_request_body := NGX_CONF_UNSET })).2.read_request_body
      = 1 ∧
    (ngx_http_read_request_body_merge_cf { read_request_body := 1 }
      { read_request_body := NGX_CONF_UNSET }).2.read_request_body = 1 ∧
    (ngx_http_read_request_body_merge_cf { read_request_body := NGX_CONF_UNSET }
      { read_request_body := NGX_CONF_UNSET }).2.read_request_body = 0 :=
  ⟨by decide,
   ((merge_cf_spec (empty_pool []) { read_request_body := NGX_CONF_UNSET }
      (ngx_http_read_request_body { read_request_body := NGX_CONF_UNSET })).2.2.2.1
      (by decide)).trans rfl,
   (merge_cf_spec (empty_pool []) { read_request_body := 1 }
      { read_request_body := NGX_CONF_UNSET }).2.2.2.2.1 rfl (by decide),
   (merge_cf_spec (empty_pool []) { read_request_body := NGX_CONF_UNSET }
      { read_request_body := NGX_CONF_UNSET }).2.2.2.2.2 rfl rfl⟩

/-! ## The read-drive loop: the call log -/

/-- The loop of `do_read` logs one call of the read primitive per iteration.
It either returns after these calls only, with the context and the read
handler as they were, or ends in a terminal branch: then one more call is
logged, the pipeline re-entry or a finalization, the completion flag is set,
the blocking read handler installed and the accumulator chain attached. -/
theorem do_read_loop_ends (ctx : ngx_http_read_request_body_ctx_t) (fuel : Nat) :
    ∀ (r r' : ngx_http_request_t), do_read_loop fuel r ctx = some r' →
      ∃ k,
        (r'.calls = r.calls
            ++ List.replicate (k + 1) call_t.ngx_http_read_unbuffered_request_body ∧
          r'.read_event_handler = r.read_event_handler ∧ r'.ctx = r.ctx) ∨
        (∃ c, r'.calls = r.calls
            ++ List.replicate (k + 1) call_t.ngx_http_read_unbuffered_request_body ++ [c] ∧
          (c = call_t.ngx_http_core_run_phases ∨ ∃ rc, c = call_t.ngx_http_finalize_request rc) ∧
          r'.read_event_handler = handler_t.ngx_http_block_reading ∧
          r'.ctx = some { ctx with done := true } ∧
          ∃ rb : ngx_http_request_body_t, r'.request_body = some { rb with bufs := ctx.bufs }) := by
  induction fuel with
  | zero =>
    intro r r' h
    simp [do_read_loop] at h
  | succ fuel ih =>
    intro r r' h
    cases hs : save ctx.bufs (ngx_http_read_unbuffered_request_body r).2 with
    | none =>
      rw [do_read_loop] at h
      simp only [hs] at h
      exact absurd h (by simp)
    | some res =>
      obtain ⟨bytes, r2⟩ := res
      rw [do_read_loop_succ fuel r ctx bytes r2 hs] at h
      have hf := (save_frame _ _ _ _ hs).1
      have hp := (read_frame r).1
      have h2h : r2.read_event_handler = r.read_event_handler := by rw [hf, hp]
      have h2c : r2.ctx = r.ctx := by rw [hf, hp]
      have h2l : r2.calls = r.calls ++ [call_t.ngx_http_read_unbuffered_request_body] := by
        rw [hf, hp]
      by_cases c1 : bytes < 0 ∨ (ngx_http_read_unbuffered_request_body r).1 = NGX_ERROR
      · rw [if_pos c1] at h
        obtain ⟨r3, h3, rfl⟩ := Option.map_eq_some'.mp h
        obtain ⟨a, b, c, d, _⟩ := do_read_done_spec r2 r3 ctx h3
        refine ⟨0, Or.inr ⟨call_t.ngx_http_finalize_request NGX_HTTP_INTERNAL_SERVER_ERROR, ?_,
          Or.inr ⟨_, rfl⟩, a, b, c⟩⟩
        simp [ngx_http_finalize_request, d, h2l]
      · rw [if_neg c1] at h
        by_cases c2 : (ngx_http_read_unbuffered_request_body r).1 = NGX_OK
        · rw [if_pos c2] at h
          obtain ⟨r3, h3, rfl⟩ := Option.map_eq_some'.mp h
          obtain ⟨a, b, c, d, _⟩ := do_read_done_spec r2 r3 ctx h3
          obtain ⟨q1, q2, q3, _, q5⟩ := run_phases_fields r3
          refine ⟨0, Or.inr ⟨call_t.ngx_http_core_run_phases, ?_, Or.inl rfl, by rw [q1, a],
            by rw [q2, b],
            by rw [q3]; exact c⟩⟩
          rw [q5, d, h2l]
          rfl
        · rw [if_neg c2] at h
          by_cases c3 : (ngx_http_read_unbuffered_request_body r).1 ≥ NGX_HTTP_SPECIAL_RESPONSE
          · rw [if_pos c3] at h
            obtain ⟨r3, h3, rfl⟩ := Option.map_eq_some'.mp h
            obtain ⟨a, b, c, d, _⟩ := do_read_done_spec r2 r3 ctx h3
            refine ⟨0, Or.inr ⟨call_t.ngx_http_finalize_request
              (ngx_http_read_unbuffered_request_body r).1, ?_, Or.inr ⟨_, rfl⟩, a, b, c⟩⟩
            simp [ngx_http_finalize_request, d, h2l]
          · rw [if_neg c3] at h
            by_cases c4 : bytes > 0
            · rw [if_pos c4] at h
              obtain ⟨k, hk⟩ := ih r2 r' h
              refine ⟨k + 1, ?_⟩
              rcases hk with ⟨p1, p2, p3⟩ | ⟨c, p1, p2, p3, p4, p5⟩
              · left
                refine ⟨?_, by rw [p2, h2h], by rw [p3, h2c]⟩
                rw [p1, h2l, List.append_assoc]
                rfl
              · right
                refine ⟨c, ?_, p2, p3, p4, p5⟩
                rw [p1, h2l, List.append_assoc, List.append_assoc, List.append_assoc]
                rfl
            · rw [if_neg c4] at h
              simp only [Option.some.injEq] at h
              subst h
              exact ⟨0, Or.inl ⟨h2l, h2h, h2c⟩⟩

/-- The post handler only appends to the call log. -/
theorem post_handler_calls (r r' : ngx_http_request_t)
    (h : ngx_http_read_request_body_post_handler r = some r') :
    ∃ l, r'.calls = r.calls ++ l := by
  cases hctx : r.ctx with
  | none =>
    simp only [ngx_http_read_request_body_post_handler, hctx, Option.some.injEq] at h
    subst h
    exact ⟨_, rfl⟩
  | some ctx =>
    simp only [ngx_http_read_request_body_post_handler, hctx] at h
    split at h
    · split at h
      · simp only [Option.some.injEq] at h
        subst h
        exact ⟨_, rfl⟩
      · split at h
        · simp only [Option.some.injEq] at h
          subst h
          exact ⟨_, rfl⟩
        · split at h
          · exact absurd h (by simp)
          · rename_i b pool1 _ link pool2 _ bytes r2 hs
            have hf := (save_frame _ _ _ _ hs).1
            split at h
            · simp only [Option.some.injEq] at h
              subst h
              rw [hf]
              exact ⟨_, rfl⟩
            · obtain ⟨k, hk⟩ := do_read_loop_ends _ _ _ _ h
              rcases hk with ⟨p1, _, _⟩ | ⟨c, p1, _⟩
              · rw [p1, hf]
                exact ⟨_, rfl⟩
              · rw [p1, hf, List.append_assoc]
                exact ⟨_, rfl⟩
    · simp only [Option.some.injEq] at h
      subst h
      have := (run_phases_fields { r with ctx := some { ctx with done := true } }).2.2.2.2
      rw [this]
      exact ⟨_, rfl⟩

/-! ## The rewrite handler starts the body read -/

/-- The start of the body read logs its call first; what the post handler
logs follows. -/
theorem read_client_request_body_calls (r r1 : ngx_http_request_t) (rc : Int)
    (h : ngx_http_read_client_request_body r ngx_http_read_request_body_post_handler
      = some (rc, r1)) :
    ∃ l, r1.calls = r.calls ++ call_t.ngx_http_read_client_request_body :: l := by
  unfold ngx_http_read_client_request_body at h
  simp only [] at h
  split at h
  · simp only [Option.some.injEq, Prod.mk.injEq] at h
    obtain ⟨_, rfl⟩ := h
    exact ⟨[], rfl⟩
  · rename_i e rest hst
    split at h
    · obtain ⟨r3, h3, h4⟩ := Option.map_eq_some'.mp h
      simp only [Prod.mk.injEq] at h4
      obtain ⟨_, rfl⟩ := h4
      obtain ⟨l, hl⟩ := post_handler_calls _ _ h3
      refine ⟨l, ?_⟩
      rw [hl]
      simp
    · simp only [Option.some.injEq, Prod.mk.injEq] at h
      obtain ⟨_, rfl⟩ := h
      exact ⟨[], rfl⟩

/-- The rewrite handler once the context is known and its flag is clear: it
sets the unbuffered mode, starts the body read and maps the status. -/
theorem handler_read_result (r0 r1 : ngx_http_request_t)
    (ctx : ngx_http_read_request_body_ctx_t) (rc : Int) (hd : ctx.done = false)
    (h : ngx_http_read_client_request_body { r0 with request_body_no_buffering := true }
      ngx_http_read_request_body_post_handler = some (rc, r1)) :
    ∃ r2, ngx_http_read_request_body_handler_read r0 ctx
        = some (if rc = NGX_ERROR then NGX_ERROR
                else if rc ≥ NGX_HTTP_SPECIAL_RESPONSE then rc else NGX_DONE, r2) ∧
      (r2 = r1 ∨ r2 = count_decrement r1) ∧
      ∃ l, r2.calls = r0.calls ++ call_t.ngx_http_read_client_request_body :: l := by
  obtain ⟨l, hl⟩ := read_client_request_body_calls _ _ _ h
  simp only [ngx_http_read_request_body_handler_read, hd, Bool.not_false, if_true, h]
  by_cases c1 : rc = NGX_ERROR
  · simp only [if_pos c1]
    exact ⟨r1, by rw [c1], Or.inl rfl, l, hl⟩
  · simp only [if_neg c1]
    by_cases c2 : rc ≥ NGX_HTTP_SPECIAL_RESPONSE
    · simp only [if_pos c2]
      split
      · exact ⟨_, rfl, Or.inr rfl, l, by simpa [count_decrement] using hl⟩
      · exact ⟨_, rfl, Or.inl rfl, l, hl⟩
    · simp only [if_neg c2]
      exact ⟨r1, rfl, Or.inl rfl, l, hl⟩

/-- C12: with the flag of the location on.  If the completion flag of the
request is already true, the rewrite handler returns `NGX_DECLINED` and leaves
the request as it is.  Otherwise, with the context of the request or a newly
allocated one, it sets the unbuffered mode and starts the body read with the
post handler as callback; for the status `rc` of that call it returns
`NGX_ERROR` if `rc = NGX_ERROR`, `rc` if `rc >= NGX_HTTP_SPECIAL_RESPONSE`,
and `NGX_DONE` in every other case.  If the context cannot be allocated, it
returns 500 and no body read is started. -/
theorem handler_result (r : ngx_http_request_t) (hflag : r.rrbcf.read_request_body ≠ 0) :
    (∀ ctx, r.ctx = some ctx → ctx.done = true →
      ngx_http_read_request_body_handler r = some (NGX_DECLINED, r)) ∧
    (∀ ctx, r.ctx = some ctx → ctx.done = false →
      ∀ rc r1,
        ngx_http_read_client_request_body { r with request_body_no_buffering := true }
          ngx_http_read_request_body_post_handler = some (rc, r1) →
        ∃ r2, ngx_http_read_request_body_handler r
            = some (if rc = NGX_ERROR then NGX_ERROR
                    else if rc ≥ NGX_HTTP_SPECIAL_RESPONSE then rc else NGX_DONE, r2) ∧
          (r2 = r1 ∨ r2 = count_decrement r1) ∧
          ∃ l, r2.calls = r.calls ++ call_t.ngx_http_read_client_request_body :: l) ∧
    (r.ctx = none → (ngx_pcalloc r.connection_pool).1 = true →
      ∀ rc r1,
        ngx_http_read_client_request_body
          { r with connection_pool := (ngx_pcalloc r.connection_pool).2,
                   ctx := some { bufs := none, done := false },
                   request_body_no_buffering := true }
          ngx_http_read_request_body_post_handler = some (rc, r1) →
        ∃ r2, ngx_http_read_request_body_handler r
            = some (if rc = NGX_ERROR then NGX_ERROR
                    else if rc ≥ NGX_HTTP_SPECIAL_RESPONSE then rc else NGX_DONE, r2) ∧
          (r2 = r1 ∨ r2 = count_decrement r1) ∧
          ∃ l, r2.calls = r.calls ++ call_t.ngx_http_read_client_request_body :: l) ∧
    (r.ctx = none → (ngx_pcalloc r.connection_pool).1 = false →
      ∃ r2, ngx_http_read_request_body_handler r
          = some (NGX_HTTP_INTERNAL_SERVER_ERROR, r2) ∧
        r2.ctx = none ∧ r2.calls = r.calls ∧
        r2.request_body_no_buffering = r.request_body_no_buffering) := by
  refine ⟨?_, ?_, ?_, ?_⟩
  · intro ctx hctx hd
    simp [ngx_http_read_request_body_handler, hflag, hctx,
      ngx_http_read_request_body_handler_read, hd]
  · intro ctx hctx hd rc r1 h
    simp only [ngx_http_read_request_body_handler, if_neg hflag, hctx]
    exact handler_read_result r r1 ctx rc hd h
  · intro hctx ha rc r1 h
    simp only [ngx_http_read_request_body_handler, if_neg hflag, hctx]
    split
    · rename_i cpool heq
      rw [heq] at ha
      exact absurd ha (by simp)
    · rename_i cpool heq
      rw [heq] at h
      exact handler_read_result _ r1 _ rc rfl h
  · intro hctx ha
    simp only [ngx_http_read_request_body_handler, if_neg hflag, hctx]
    split
    · exact ⟨_, rfl, rfl, rfl, rfl⟩
    · rename_i cpool heq
      rw [heq] at ha
      exact absurd ha (by simp)

/-- Scenario A as an instance of `handler_result`: the context is allocated,
the body read is started and reports `NGX_AGAIN`, the handler returns
`NGX_DONE`. -/
theorem handler_result_witness :
    ∃ r2, ngx_http_read_request_body_handler scenario_a_run = some (NGX_DONE, r2) ∧
      ∃ l, r2.calls = scenario_a_run.calls ++ call_t.ngx_http_read_client_request_body :: l := by
  obtain ⟨r2, h1, _, h3⟩ :=
    (handler_result scenario_a_run (by decide)).2.2.1 rfl (by decide) NGX_AGAIN _ rfl
  exact ⟨r2, h1, h3⟩

/-! ## The read-drive loop: yield and terminal outcomes -/

/-- C15: in an iteration of `do_read` in which the read primitive returns a
pending result (not `NGX_ERROR`, not `NGX_OK`, below
`NGX_HTTP_SPECIAL_RESPONSE`) and the drain succeeds with `bytes >= 0`: the
loop runs another iteration exactly when `bytes > 0`.  With `bytes = 0`,
`do_read` returns the state the drain left: one call of the read primitive is
logged and nothing else, the context (hence the completion flag) and the read
handler are as they were.  With `bytes > 0`, `do_read` calls the read
primitive a second time. -/
theorem do_read_yield (r r2 : ngx_http_request_t) (ctx : ngx_http_read_request_body_ctx_t)
    (bufs : ngx_chain_t) (bytes : Int)
    (hb : ctx.bufs = some bufs) (hrb : r.request_body.isSome = true)
    (hs : save ctx.bufs (ngx_http_read_unbuffered_request_body r).2 = some (bytes, r2))
    (h0 : 0 ≤ bytes)
    (h1 : (ngx_http_read_unbuffered_request_body r).1 ≠ NGX_ERROR)
    (h2 : (ngx_http_read_unbuffered_request_body r).1 ≠ NGX_OK)
    (h3 : (ngx_http_read_unbuffered_request_body r).1 < NGX_HTTP_SPECIAL_RESPONSE) :
    (∀ fuel, do_read_loop (fuel + 1) r ctx
      = if bytes > 0 then do_read_loop fuel r2 ctx else some r2) ∧
    (bytes = 0 →
      do_read r ctx = some r2 ∧
      r2.calls = r.calls ++ [call_t.ngx_http_read_unbuffered_request_body] ∧
      r2.ctx = r.ctx ∧ r2.read_event_handler = r.read_event_handler) ∧
    (bytes > 0 →
      ∃ r' l, do_read r ctx = some r' ∧
        r'.calls = r.calls ++ call_t.ngx_http_read_unbuffered_request_body ::
          call_t.ngx_http_read_unbuffered_request_body :: l) := by
  have step : ∀ fuel, do_read_loop (fuel + 1) r ctx
      = if bytes > 0 then do_read_loop fuel r2 ctx else some r2 := by
    intro fuel
    rw [do_read_loop_succ fuel r ctx bytes r2 hs]
    have c1 : ¬ (bytes < 0 ∨ (ngx_http_read_unbuffered_request_body r).1 = NGX_ERROR) := by
      intro h
      rcases h with h | h
      · omega
      · exact h1 h
    have c3 : ¬ (ngx_http_read_unbuffered_request_body r).1 ≥ NGX_HTTP_SPECIAL_RESPONSE := by
      omega
    rw [if_neg c1, if_neg h2, if_neg c3]
  have hf := (save_frame _ _ _ _ hs).1
  have hp := (read_frame r).1
  have h2l : r2.calls = r.calls ++ [call_t.ngx_http_read_unbuffered_request_body] := by
    rw [hf, hp]
  refine ⟨step, ?_, ?_⟩
  · intro hz
    refine ⟨?_, h2l, by rw [hf, hp], by rw [hf, hp]⟩
    rw [do_read, step, if_neg (by omega)]
  · intro hpos
    obtain ⟨r', hr'⟩ := do_read_returns ctx bufs hb r.reads.length r rfl hrb
    have e : do_read r ctx = some r' := hr'
    refine ⟨r', ?_⟩
    rw [do_read, step, if_pos hpos] at e
    obtain ⟨k, hk⟩ := do_read_loop_ends ctx _ r2 r' e
    rcases hk with ⟨p1, _, _⟩ | ⟨c, p1, _⟩
    · refine ⟨List.replicate k call_t.ngx_http_read_unbuffered_request_body, hr', ?_⟩
      rw [p1, h2l, List.append_assoc]
      rfl
    · refine ⟨List.replicate k call_t.ngx_http_read_unbuffered_request_body ++ [c], hr', ?_⟩
      rw [p1, h2l, List.append_assoc, List.append_assoc]
      rfl

/-- An instance of `do_read_yield`: the first read brings two bytes without
ending the body, so the read primitive is called a second time. -/
theorem do_read_yield_witness :
    ∃ r' l, do_read pending_request.2 pending_request.1 = some r' ∧
      r'.calls = pending_request.2.calls ++ call_t.ngx_http_read_unbuffered_request_body ::
        call_t.ngx_http_read_unbuffered_request_body :: l :=
  (do_read_yield pending_request.2 _ pending_request.1 small_accumulator.1 2 rfl rfl rfl
    (by decide) (by decide) (by decide) (by decide)).2.2 (by decide)

/-- The read primitive with a scripted result at hand. -/
theorem read_cons (r : ngx_http_request_t) (e : read_result) (rest : List read_result)
    (h : r.reads = e :: rest) :
    ngx_http_read_unbuffered_request_body r =
      (e.rc,
       { r with calls := r.calls ++ [call_t.ngx_http_read_unbuffered_request_body],
                reads := rest,
                request_body := r.request_body.map fun rb => { rb with busy := e.busy } }) := by
  unfold ngx_http_read_unbuffered_request_body
  simp only [h]

/-- C16: when `do_read` ends in a terminal outcome, that is when the last call
it logged is not a call of the read primitive but a finalization (error or
early response) or the pipeline re-entry (success), then on return the
completion flag is true, the read handler is `ngx_http_block_reading` and the
body holder references the accumulator chain of the context.  In particular,
when the first read reports an early response `rc >= NGX_HTTP_SPECIAL_RESPONSE`
without chunks, the request is finalized with `rc`, the chain is attached and
the pool, with the accumulator in it, is as it was, so an empty accumulator
still has written length zero. -/
theorem do_read_terminal (r r' : ngx_http_request_t) (ctx : ngx_http_read_request_body_ctx_t) :
    (do_read r ctx = some r' →
      r'.calls.getLast? ≠ some call_t.ngx_http_read_unbuffered_request_body →
      done_flag r' = true ∧
      r'.read_event_handler = handler_t.ngx_http_block_reading ∧
      ∃ rb : ngx_http_request_body_t, r'.request_body = some { rb with bufs := ctx.bufs }) ∧
    (∀ e rest rb bufs, r.reads = e :: rest → e.busy = [] →
      e.rc ≥ NGX_HTTP_SPECIAL_RESPONSE → r.request_body = some rb → ctx.bufs = some bufs →
      ∃ r3, do_read r ctx = some r3 ∧
        r3.calls = r.calls ++ [call_t.ngx_http_read_unbuffered_request_body,
          call_t.ngx_http_finalize_request e.rc] ∧
        done_flag r3 = true ∧
        r3.read_event_handler = handler_t.ngx_http_block_reading ∧
        r3.request_body = some { bufs := ctx.bufs, busy := [] } ∧
        r3.pool = r.pool ∧ accumulated bufs r3 = accumulated bufs r) := by
  constructor
  · intro h hlast
    obtain ⟨k, hk⟩ := do_read_loop_ends ctx _ r r' h
    rcases hk with ⟨p1, _, _⟩ | ⟨c, _, _, p3, p4, p5⟩
    · exfalso
      apply hlast
      rw [p1, List.replicate_succ', ← List.append_assoc, List.getLast?_append]
      rfl
    · exact ⟨by simp [done_flag, p4], p3, p5⟩
  · intro e rest rb bufs hreads hbusy hrc hrb hb
    have hp := read_cons r e rest hreads
    have hs : save ctx.bufs (ngx_http_read_unbuffered_request_body r).2
        = some (0, (ngx_http_read_unbuffered_request_body r).2) := by
      rw [hb]
      apply save_noop bufs _ { rb with busy := e.busy }
      · rw [hp, hrb]
        rfl
      · intro c hc
        rw [hbusy] at hc
        simp at hc
    have c1 : ¬ ((0 : Int) < 0 ∨ (ngx_http_read_unbuffered_request_body r).1 = NGX_ERROR) := by
      rw [hp]
      simp only [NGX_ERROR, NGX_HTTP_SPECIAL_RESPONSE] at hrc ⊢
      omega
    have c2 : (ngx_http_read_unbuffered_request_body r).1 ≠ NGX_OK := by
      rw [hp]
      simp only [NGX_OK, NGX_HTTP_SPECIAL_RESPONSE] at hrc ⊢
      omega
    have c3 : (ngx_http_read_unbuffered_request_body r).1 ≥ NGX_HTTP_SPECIAL_RESPONSE := by
      rw [hp]
      exact hrc
    have hrb1 : (ngx_http_read_unbuffered_request_body r).2.request_body
        = some { rb with busy := e.busy } := by
      rw [hp, hrb]
      rfl
    rw [do_read, do_read_loop_succ _ r ctx 0 _ hs, if_neg c1, if_neg c2, if_pos c3,
      do_read_done_eq _ ctx _ hrb1]
    refine ⟨_, rfl, ?_, rfl, rfl, ?_, ?_, ?_⟩
    · rw [hp]
      simp [ngx_http_finalize_request]
    · simp [ngx_http_finalize_request, hbusy]
    · rw [hp]
      rfl
    · rw [hp]
      rfl

/-- Scenario D as an instance of `do_read_terminal`: the first read reports
413 without chunks; the request is finalized with 413, the flag is set, the
blocking handler installed and the attached accumulator holds zero bytes. -/
theorem do_read_terminal_witness :
    (∃ r3, do_read scenario_d.2 scenario_d.1 = some r3 ∧
      r3.calls = scenario_d.2.calls ++ [call_t.ngx_http_read_unbuffered_request_body,
        call_t.ngx_http_finalize_request 413] ∧
      done_flag r3 = true ∧
      r3.read_event_handler = handler_t.ngx_http_block_reading ∧
      r3.request_body = some { bufs := scenario_d.1.bufs, busy := [] } ∧
      r3.pool = scenario_d.2.pool ∧
      accumulated small_accumulator.1 r3 = accumulated small_accumulator.1 scenario_d.2) ∧
    accumulated small_accumulator.1 scenario_d.2 = [] :=
  ⟨(do_read_terminal scenario_d.2 scenario_d.2 scenario_d.1).2
    { rc := 413, busy := [] } [] { bufs := none, busy := [] } small_accumulator.1
    rfl rfl (by decide) rfl rfl, by decide⟩

/-! ## The post handler -/

theorem ngx_create_temp_buf_some (pool : ngx_pool_t) (size : Nat)
    (h : (ngx_create_temp_buf pool size).1 ≠ none) :
    ngx_create_temp_buf pool size =
      (some pool.brk,
       { heap := Function.update pool.heap pool.brk
           { pos := 0, last := 0, start := 0, end_ := size, mem := fun _ => 0 },
         brk := pool.brk + 1,
         outcomes := pool.outcomes.tail,
         requests := pool.requests ++ [alloc_t.ngx_create_temp_buf size] }) := by
  unfold ngx_create_temp_buf at h ⊢
  split
  · rename_i rest heq
    simp [heq] at h
  · rfl

theorem ngx_alloc_chain_link_some (pool : ngx_pool_t)
    (h : (ngx_alloc_chain_link pool).1 ≠ none) :
    ngx_alloc_chain_link pool =
      (some { buf := 0, next := none },
       { pool with outcomes := pool.outcomes.tail,
                   requests := pool.requests ++ [alloc_t.ngx_alloc_chain_link] }) := by
  unfold ngx_alloc_chain_link at h ⊢
  split
  · rename_i rest heq
    simp [heq] at h
  · rfl

/-- C20: the post handler on a request with a context.  When the request is
not in the reading-body state, it sets the completion flag and re-enters the
pipeline: the pool, the read handler, `ctx->bufs` and the body holder are as
they were, and only the pipeline re-entry is logged.  When the request is in
the reading-body state and the two allocations succeed, it creates an initial
buffer of exactly `body_size r` bytes, empty, links it to the context and runs
the drain on the chunks already read before any call of the read primitive;
unless the drain fails, `do_read` follows with `on_read` installed. -/
theorem post_handler_spec (r : ngx_http_request_t) (ctx : ngx_http_read_request_body_ctx_t)
    (hctx : r.ctx = some ctx) :
    (r.reading_body = false →
      ∃ r', ngx_http_read_request_body_post_handler r = some r' ∧
        done_flag r' = true ∧
        r'.calls = r.calls ++ [call_t.ngx_http_core_run_phases] ∧
        r'.pool = r.pool ∧
        r'.read_event_handler = r.read_event_handler ∧
        r'.ctx = some { ctx with done := true } ∧
        r'.request_body = r.request_body) ∧
    (r.reading_body = true →
      (ngx_create_temp_buf r.pool (body_size r)).1 ≠ none →
      (ngx_alloc_chain_link (ngx_create_temp_buf r.pool (body_size r)).2).1 ≠ none →
      ∃ pool2 bytes r2,
        pool2.requests = r.pool.requests
          ++ [alloc_t.ngx_create_temp_buf (body_size r), alloc_t.ngx_alloc_chain_link] ∧
        (pool2.heap r.pool.brk).end_ - (pool2.heap r.pool.brk).start = body_size r ∧
        (pool2.heap r.pool.brk).pos = (pool2.heap r.pool.brk).start ∧
        (pool2.heap r.pool.brk).last = (pool2.heap r.pool.brk).start ∧
        save (some { buf := r.pool.brk, next := none })
          { r with pool := pool2,
                   ctx := some { ctx with bufs := some { buf := r.pool.brk, next := none } } }
          = some (bytes, r2) ∧
        r2.calls = r.calls ∧
        ngx_http_read_request_body_post_handler r =
          if bytes < 0 then
            some (ngx_http_finalize_request r2 NGX_HTTP_INTERNAL_SERVER_ERROR)
          else
            do_read { r2 with read_event_handler := handler_t.on_read }
              { ctx with bufs := some { buf := r.pool.brk, next := none } }) := by
  constructor
  · intro hrd
    obtain ⟨q1, q2, q3, q4, q5⟩ :=
      run_phases_fields { r with ctx := some { ctx with done := true } }
    refine ⟨_, ?_, ?_, q5, q4, q1, q2, q3⟩
    · simp [ngx_http_read_request_body_post_handler, hctx, hrd]
    · simp only [done_flag]
      rw [q2]
  · intro hrd h1 h2
    have e1 := ngx_create_temp_buf_some r.pool (body_size r) h1
    rw [e1] at h2
    have e2 := ngx_alloc_chain_link_some _ h2
    obtain ⟨bytes, r2, hs⟩ := save_some { buf := r.pool.brk, next := none }
      { r with
          pool := (ngx_alloc_chain_link (ngx_create_temp_buf r.pool (body_size r)).2).2,
          ctx := some { ctx with bufs := some { buf := r.pool.brk, next := none } } }
    refine ⟨_, bytes, r2, ?_, ?_, ?_, ?_, hs, ?_, ?_⟩
    · rw [e1, e2]
      simp
    · rw [e1, e2]
      simp
    · rw [e1, e2]
      simp
    · rw [e1, e2]
      simp
    · rw [(save_frame _ _ _ _ hs).1]
    · simp only [e1, e2, hrd] at hs
      simp only [ngx_http_read_request_body_post_handler, hctx, hrd, if_true, e1, e2, hs]

/-- An instance of `post_handler_spec`: a chunked request under a ceiling of 4
bytes in the reading-body state gets an initial buffer of exactly 4 bytes. -/
theorem post_handler_spec_witness :
    ∃ pool2 bytes r2,
      pool2.requests = (post_failure_request []).pool.requests
        ++ [alloc_t.ngx_create_temp_buf (body_size (post_failure_request [])),
            alloc_t.ngx_alloc_chain_link] ∧
      (pool2.heap (post_failure_request []).pool.brk).end_
        - (pool2.heap (post_failure_request []).pool.brk).start
        = body_size (post_failure_request []) ∧
      (pool2.heap (post_failure_request []).pool.brk).pos
        = (pool2.heap (post_failure_request []).pool.brk).start ∧
      (pool2.heap (post_failure_request []).pool.brk).last
        = (pool2.heap (post_failure_request []).pool.brk).start ∧
      save (some { buf := (post_failure_request []).pool.brk, next := none })
        { post_failure_request [] with
            pool := pool2,
            ctx := some { bufs := some { buf := (post_failure_request []).pool.brk,
                                         next := none },
                          done := false } }
        = some (bytes, r2) ∧
      r2.calls = (post_failure_request []).calls ∧
      ngx_http_read_request_body_post_handler (post_failure_request []) =
        if bytes < 0 then
          some (ngx_http_finalize_request r2 NGX_HTTP_INTERNAL_SERVER_ERROR)
        else
          do_read { r2 with read_event_handler := handler_t.on_read }
            { bufs := some { buf := (post_failure_request []).pool.brk, next := none },
              done := false } :=
  (post_handler_spec (post_failure_request []) { bufs := none, done := false } rfl).2
    rfl (by decide) (by decide)

/-! ## The drain step: growth -/

theorem ngx_create_temp_buf_none (pool : ngx_pool_t) (size : Nat)
    (h : (ngx_create_temp_buf pool size).1 = none) :
    ngx_create_temp_buf pool size =
      (none, { pool with outcomes := pool.outcomes.tail,
                         requests := pool.requests ++ [alloc_t.ngx_create_temp_buf size] }) := by
  unfold ngx_create_temp_buf at h ⊢
  split
  · rename_i rest heq
    simp [heq]
  · simp at h

/-- The growth step of `save` when the allocation succeeds: the new buffer has
the requested size and holds the bytes written so far at its start. -/
theorem save_grow_some (pool : ngx_pool_t) (dst n : Nat)
    (h : (ngx_create_temp_buf pool (grow_size (pool.heap dst) n)).1 ≠ none) :
    save_grow pool dst n =
      (some pool.brk,
       { heap := Function.update pool.heap pool.brk
           { pos := 0,
             last := 0 + ptr_diff (pool.heap dst).last (pool.heap dst).pos,
             start := 0,
             end_ := grow_size (pool.heap dst) n,
             mem := memcpy (fun _ => 0) 0 (pool.heap dst).mem (pool.heap dst).pos
               (ptr_diff (pool.heap dst).last (pool.heap dst).pos) },
         brk := pool.brk + 1,
         outcomes := pool.outcomes.tail,
         requests := pool.requests
           ++ [alloc_t.ngx_create_temp_buf (grow_size (pool.heap dst) n)] }) := by
  have e := ngx_create_temp_buf_some pool (grow_size (pool.heap dst) n) h
  unfold grow_size at e
  unfold save_grow grow_size
  simp only [e, Function.update_same, Function.update_idem]

/-- The growth step of `save` when the allocation fails: no buffer changes. -/
theorem save_grow_none (pool : ngx_pool_t) (dst n : Nat)
    (h : (ngx_create_temp_buf pool (grow_size (pool.heap dst) n)).1 = none) :
    save_grow pool dst n =
      (none, { pool with outcomes := pool.outcomes.tail,
                         requests := pool.requests
                           ++ [alloc_t.ngx_create_temp_buf (grow_size (pool.heap dst) n)] }) := by
  have e := ngx_create_temp_buf_none pool (grow_size (pool.heap dst) n) h
  unfold grow_size at e
  unfold save_grow grow_size
  simp only [e]

theorem grow_size_eq_max (d : ngx_buf_t) (n : Nat) :
    grow_size d n
      = max ((2 * ptr_diff d.end_ d.start) % 2 ^ 64) ((ptr_diff d.last d.pos + n) % 2 ^ 64) := by
  unfold grow_size
  split <;> omega

/-- The data of the buffer the growth step creates, after the chunk was
appended to it. -/
theorem data_grown (d src : ngx_buf_t) (size already n : Nat) :
    ({ pos := 0, last := 0 + already + n, start := 0, end_ := size,
       mem := memcpy (memcpy (fun _ => 0) 0 d.mem d.pos already) (0 + already)
         src.mem src.pos n } : ngx_buf_t).data
      = (List.range' d.pos already).map d.mem ++ (List.range' src.pos n).map src.mem := by
  have h1 := data_append
    { pos := 0, last := 0, start := 0, end_ := size, mem := fun _ => 0 }
    d.mem d.pos already (le_refl _)
  have h2 := data_append
    { pos := 0, last := 0 + already, start := 0, end_ := size,
      mem := memcpy (fun _ => 0) 0 d.mem d.pos already }
    src.mem src.pos n (Nat.zero_le _)
  simp only [] at h1 h2
  rw [h2, h1]
  simp [ngx_buf_t.data]

/-- C14: one iteration of the loop of `save` on a chunk of `n` unread bytes,
with `already = last - pos` and `cap = end - start` of the current
destination.  When the chunk does not fit (`n > end - last`) and the
allocation succeeds, the buffer requested has size exactly
`max (2 * cap) (already + n)` in `size_t` arithmetic; it receives the bytes
already written at its start, followed by the `n` chunk bytes, and the loop
goes on with it as destination; when neither `2 * cap` nor `already + n`
overflows, its capacity is at least `already + n` and at least `2 * cap`.
When the chunk fits, nothing is allocated and the capacity of the destination
is unchanged. -/
theorem save_growth_policy (src : ngx_buf_t) (cl : List ngx_buf_t) (pool : ngx_pool_t)
    (dst : Nat) (bytes : Int) (n already cap : Nat)
    (hn : n = ptr_diff src.last src.pos)
    (ha : already = ptr_diff (pool.heap dst).last (pool.heap dst).pos)
    (hc : cap = ptr_diff (pool.heap dst).end_ (pool.heap dst).start) :
    (n > ptr_diff (pool.heap dst).end_ (pool.heap dst).last →
      (ngx_create_temp_buf pool (grow_size (pool.heap dst) n)).1 ≠ none →
      ∃ pool1,
        save_loop (src :: cl) pool dst bytes
          = ((save_loop cl pool1 pool.brk (to_ngx_int_t (bytes + n))).1,
             { src with pos := src.pos + n }
               :: (save_loop cl pool1 pool.brk (to_ngx_int_t (bytes + n))).2.1,
             (save_loop cl pool1 pool.brk (to_ngx_int_t (bytes + n))).2.2) ∧
        pool1.requests = pool.requests
          ++ [alloc_t.ngx_create_temp_buf
                (max ((2 * cap) % 2 ^ 64) ((already + n) % 2 ^ 64))] ∧
        pool1.brk = pool.brk + 1 ∧
        (pool1.heap pool.brk).end_ - (pool1.heap pool.brk).start
          = max ((2 * cap) % 2 ^ 64) ((already + n) % 2 ^ 64) ∧
        (pool1.heap pool.brk).pos = (pool1.heap pool.brk).start ∧
        (pool1.heap pool.brk).data
          = (List.range' (pool.heap dst).pos already).map (pool.heap dst).mem
            ++ (List.range' src.pos n).map src.mem ∧
        (2 * cap < 2 ^ 64 → already + n < 2 ^ 64 →
          (pool1.heap pool.brk).end_ - (pool1.heap pool.brk).start
            = max (2 * cap) (already + n) ∧
          already + n ≤ (pool1.heap pool.brk).end_ - (pool1.heap pool.brk).start ∧
          2 * cap ≤ (pool1.heap pool.brk).end_ - (pool1.heap pool.brk).start)) ∧
    (¬ n > ptr_diff (pool.heap dst).end_ (pool.heap dst).last →
      ∃ pool1,
        save_loop (src :: cl) pool dst bytes
          = ((save_loop cl pool1 dst (to_ngx_int_t (bytes + n))).1,
             { src with pos := src.pos + n }
               :: (save_loop cl pool1 dst (to_ngx_int_t (bytes + n))).2.1,
             (save_loop cl pool1 dst (to_ngx_int_t (bytes + n))).2.2) ∧
        pool1.requests = pool.requests ∧
        pool1.brk = pool.brk ∧
        (pool1.heap dst).end_ = (pool.heap dst).end_ ∧
        (pool1.heap dst).start = (pool.heap dst).start) := by
  subst hn ha hc
  constructor
  · intro hfit halloc
    have hg := save_grow_some pool dst (ptr_diff src.last src.pos) halloc
    have hg1 : (save_grow pool dst (ptr_diff src.last src.pos)).1 = some pool.brk := by
      rw [hg]
    refine ⟨save_copy (save_grow pool dst (ptr_diff src.last src.pos)).2 pool.brk src
      (ptr_diff src.last src.pos), save_loop_cons_grow src cl pool dst bytes pool.brk hfit hg1,
      ?_, ?_, ?_, ?_, ?_, ?_⟩
    · rw [hg, ← grow_size_eq_max]
      rfl
    · rw [hg]
      rfl
    · rw [save_copy_heap_self, hg, ← grow_size_eq_max]
      simp
    · rw [save_copy_heap_self, hg]
      simp
    · rw [save_copy_heap_self, hg]
      simp only [Function.update_same]
      exact data_grown _ _ _ _ _
    · intro h1 h2
      rw [save_copy_heap_self, hg]
      simp only [Function.update_same, grow_size_eq_max]
      omega
  · intro hfit
    refine ⟨save_copy pool dst src (ptr_diff src.last src.pos),
      save_loop_cons_fits src cl pool dst bytes hfit, rfl, rfl, ?_, ?_⟩
    · rw [save_copy_heap_self]
    · rw [save_copy_heap_self]

/-- An instance of `save_growth_policy`: a chunk of 2 bytes arrives at an
accumulator of capacity 4 holding 3 bytes; the buffer requested has size
`max (2 * 4) (3 + 2) = 8` and receives `[1, 2, 3, 4, 5]`. -/
theorem save_growth_policy_witness :
    (∃ pool1,
      save_loop [chunk_of [4, 5]] filled_accumulator 0 0
        = ((save_loop [] pool1 filled_accumulator.brk (to_ngx_int_t (0 + 2))).1,
           { chunk_of [4, 5] with pos := (chunk_of [4, 5]).pos + 2 }
             :: (save_loop [] pool1 filled_accumulator.brk (to_ngx_int_t (0 + 2))).2.1,
           (save_loop [] pool1 filled_accumulator.brk (to_ngx_int_t (0 + 2))).2.2) ∧
      pool1.requests = filled_accumulator.requests
        ++ [alloc_t.ngx_create_temp_buf (max ((2 * 4) % 2 ^ 64) ((3 + 2) % 2 ^ 64))] ∧
      pool1.brk = filled_accumulator.brk + 1 ∧
      (pool1.heap filled_accumulator.brk).end_ - (pool1.heap filled_accumulator.brk).start
        = max ((2 * 4) % 2 ^ 64) ((3 + 2) % 2 ^ 64) ∧
      (pool1.heap filled_accumulator.brk).pos = (pool1.heap filled_accumulator.brk).start ∧
      (pool1.heap filled_accumulator.brk).data
        = (List.range' (filled_accumulator.heap 0).pos 3).map (filled_accumulator.heap 0).mem
          ++ (List.range' (chunk_of [4, 5]).pos 2).map (chunk_of [4, 5]).mem ∧
      (2 * 4 < 2 ^ 64 → 3 + 2 < 2 ^ 64 →
        (pool1.heap filled_accumulator.brk).end_ - (pool1.heap filled_accumulator.brk).start
          = max (2 * 4) (3 + 2) ∧
        3 + 2 ≤ (pool1.heap filled_accumulator.brk).end_
          - (pool1.heap filled_accumulator.brk).start ∧
        2 * 4 ≤ (pool1.heap filled_accumulator.brk).end_
          - (pool1.heap filled_accumulator.brk).start)) ∧
    (List.range' (filled_accumulator.heap 0).pos 3).map (filled_accumulator.heap 0).mem
      ++ (List.range' (chunk_of [4, 5]).pos 2).map (chunk_of [4, 5]).mem = [1, 2, 3, 4, 5] :=
  ⟨(save_growth_policy (chunk_of [4, 5]) [] filled_accumulator 0 0 2 3 4
      (by decide) (by decide) (by decide)).1 (by decide) (by decide),
   by decide⟩

/-! ## The drain step: the region invariant -/

/-- The loop of `save` keeps the region invariant of every buffer that had it
and establishes it for every buffer it creates, provided the bytes written to
the destination and the unread bytes of well-formed chunks fit in the address
space together. -/
theorem save_loop_wf (cl : List ngx_buf_t) :
    ∀ (pool : ngx_pool_t) (dst : Nat) (bytes : Int),
      (pool.heap dst).wf →
      (∀ c ∈ cl, c.pos ≤ c.last) →
      ((pool.heap dst).last - (pool.heap dst).pos) + unread cl < 2 ^ 64 →
      pool.brk ≤ (save_loop cl pool dst bytes).2.2.brk ∧
      ∀ p, ((pool.heap p).wf ∨ (pool.brk ≤ p ∧ p < (save_loop cl pool dst bytes).2.2.brk)) →
        ((save_loop cl pool dst bytes).2.2.heap p).wf := by
  induction cl with
  | nil =>
    intro pool dst bytes _ _ _
    refine ⟨le_refl _, ?_⟩
    intro p hp
    rcases hp with hp | ⟨h1, h2⟩
    · exact hp
    · simp only [save_loop] at h2
      omega
  | cons src cl ih =>
    intro pool dst bytes hd hwf hsum
    have hsrc : src.pos ≤ src.last := hwf src (List.mem_cons_self _ _)
    have hcl : ∀ c ∈ cl, c.pos ≤ c.last := fun c hc => hwf c (List.mem_cons_of_mem _ hc)
    simp only [unread] at hsum
    obtain ⟨d1, d2, d3, d4⟩ := hd
    have hn : ptr_diff src.last src.pos = src.last - src.pos :=
      ptr_diff_of_le hsrc (by omega)
    have hav : ptr_diff (pool.heap dst).end_ (pool.heap dst).last
        = (pool.heap dst).end_ - (pool.heap dst).last := ptr_diff_of_le d3 (by omega)
    by_cases hfit : ptr_diff src.last src.pos
        > ptr_diff (pool.heap dst).end_ (pool.heap dst).last
    · cases hg : (ngx_create_temp_buf pool
          (grow_size (pool.heap dst) (ptr_diff src.last src.pos))).1 with
      | none =>
        have e := save_grow_none pool dst _ hg
        rw [save_loop_cons_fail src cl pool dst bytes hfit (by rw [e]), e]
        refine ⟨le_refl _, ?_⟩
        intro p hp
        rcases hp with hp | ⟨h1, h2⟩
        · exact hp
        · simp only [] at h2
          omega
      | some tmp =>
        have hne : (ngx_create_temp_buf pool
            (grow_size (pool.heap dst) (ptr_diff src.last src.pos))).1 ≠ none := by
          rw [hg]; simp
        have e := save_grow_some pool dst _ hne
        have e1 : (save_grow pool dst (ptr_diff src.last src.pos)).1 = some pool.brk := by
          rw [e]
        rw [save_loop_cons_grow src cl pool dst bytes pool.brk hfit e1]
        have hal : ptr_diff (pool.heap dst).last (pool.heap dst).pos
            = (pool.heap dst).last - (pool.heap dst).pos := ptr_diff_of_le d2 (by omega)
        have hsz := grow_size_eq_max (pool.heap dst) (ptr_diff src.last src.pos)
        have hself := save_copy_heap_self (save_grow pool dst (ptr_diff src.last src.pos)).2
          pool.brk src (ptr_diff src.last src.pos)
        have hnew : ((save_copy (save_grow pool dst (ptr_diff src.last src.pos)).2
            pool.brk src (ptr_diff src.last src.pos)).heap pool.brk).wf ∧
            (((save_copy (save_grow pool dst (ptr_diff src.last src.pos)).2
              pool.brk src (ptr_diff src.last src.pos)).heap pool.brk).last
              - ((save_copy (save_grow pool dst (ptr_diff src.last src.pos)).2
              pool.brk src (ptr_diff src.last src.pos)).heap pool.brk).pos)
              = ((pool.heap dst).last - (pool.heap dst).pos) + (src.last - src.pos) := by
          rw [hself, e]
          simp only [Function.update_same]
          refine ⟨⟨?_, ?_, ?_, ?_⟩, ?_⟩ <;> (try simp only []) <;> omega
        have hbrk : (save_copy (save_grow pool dst (ptr_diff src.last src.pos)).2
            pool.brk src (ptr_diff src.last src.pos)).brk = pool.brk + 1 := by
          rw [e]; rfl
        have hother : ∀ p, p ≠ pool.brk →
            (save_copy (save_grow pool dst (ptr_diff src.last src.pos)).2
              pool.brk src (ptr_diff src.last src.pos)).heap p = pool.heap p := by
          intro p hp
          rw [save_copy_heap_other _ _ _ _ _ hp, e]
          exact Function.update_noteq hp _ _
        obtain ⟨i1, i2⟩ := ih
          (save_copy (save_grow pool dst (ptr_diff src.last src.pos)).2 pool.brk src
            (ptr_diff src.last src.pos))
          pool.brk (to_ngx_int_t (bytes + ptr_diff src.last src.pos)) hnew.1 hcl
          (by rw [hnew.2]; omega)
        rw [hbrk] at i1 i2
        refine ⟨by simp only []; omega, ?_⟩
        intro p hp
        simp only [] at hp ⊢
        apply i2
        by_cases hpb : p = pool.brk
        · left
          rw [hpb]
          exact hnew.1
        · rcases hp with hp | ⟨h1, h2⟩
          · left
            rw [hother p hpb]
            exact hp
          · right
            exact ⟨by omega, h2⟩
    · rw [save_loop_cons_fits src cl pool dst bytes hfit]
      have hself := save_copy_heap_self pool dst src (ptr_diff src.last src.pos)
      rw [hn, hav] at hfit
      have hnew : ((save_copy pool dst src (ptr_diff src.last src.pos)).heap dst).wf ∧
          (((save_copy pool dst src (ptr_diff src.last src.pos)).heap dst).last
            - ((save_copy pool dst src (ptr_diff src.last src.pos)).heap dst).pos)
            = ((pool.heap dst).last - (pool.heap dst).pos) + (src.last - src.pos) := by
        rw [hself]
        refine ⟨⟨?_, ?_, ?_, ?_⟩, ?_⟩ <;> (try simp only []) <;> omega
      obtain ⟨i1, i2⟩ := ih (save_copy pool dst src (ptr_diff src.last src.pos)) dst
        (to_ngx_int_t (bytes + ptr_diff src.last src.pos)) hnew.1 hcl
        (by rw [hnew.2]; omega)
      have hbrk : (save_copy pool dst src (ptr_diff src.last src.pos)).brk = pool.brk := rfl
      rw [hbrk] at i1 i2
      refine ⟨i1, ?_⟩
      intro p hp
      simp only [] at hp ⊢
      apply i2
      by_cases hpd : p = dst
      · left
        rw [hpd]
        exact hnew.1
      · rcases hp with hp | hp
        · left
          rw [save_copy_heap_other _ _ _ _ _ hpd]
          exact hp
        · right
          exact hp

/-- C17: if the accumulator buffer satisfies `start <= pos <= last <= end`
(inside the address space) and every chunk satisfies `pos <= last`, the bytes
written and the unread bytes fitting in the address space together, then after
`save`, whether it succeeded or failed, the buffer `bufs->buf` points to and
every buffer `save` has created satisfy `start <= pos <= last <= end`: no
`last` was advanced past the `end` of its region. -/
theorem save_keeps_regions (bufs : ngx_chain_t) (r : ngx_http_request_t)
    (rb : ngx_http_request_body_t) (hrb : r.request_body = some rb)
    (hacc : (r.pool.heap bufs.buf).wf)
    (hch : ∀ c ∈ rb.busy, c.pos ≤ c.last)
    (hsum : ((r.pool.heap bufs.buf).last - (r.pool.heap bufs.buf).pos) + unread rb.busy
      < 2 ^ 64) :
    ∃ n r', save (some bufs) r = some (n, r') ∧
      r.pool.brk ≤ r'.pool.brk ∧
      (r'.pool.heap bufs.buf).wf ∧
      ∀ p, r.pool.brk ≤ p → p < r'.pool.brk → (r'.pool.heap p).wf := by
  obtain ⟨h1, h2⟩ := save_loop_wf rb.busy r.pool bufs.buf 0 hacc hch hsum
  exact ⟨_, _, save_eq bufs r rb hrb, h1, h2 _ (Or.inl hacc), fun p hp1 hp2 => h2 p (Or.inr ⟨hp1, hp2⟩)⟩

/-- An instance of `save_keeps_regions`: two chunks of 3 bytes arrive at an
empty accumulator of capacity 4; the accumulator and the buffer created for
the second chunk keep the invariant. -/
theorem save_keeps_regions_witness :
    ∃ n r', save (some small_accumulator.1) growth_request = some (n, r') ∧
      growth_request.pool.brk ≤ r'.pool.brk ∧
      (r'.pool.heap small_accumulator.1.buf).wf ∧
      ∀ p, growth_request.pool.brk ≤ p → p < r'.pool.brk → (r'.pool.heap p).wf :=
  save_keeps_regions small_accumulator.1 growth_request
    { bufs := none, busy := [chunk_of [1, 2, 3], chunk_of [4, 5, 6]] } rfl
    (by decide) (by decide) (by decide)

/-! ## The drain step: the loop over a prefix of the chain -/

theorem save_upto_cons_fits (src : ngx_buf_t) (cl : List ngx_buf_t) (pool : ngx_pool_t)
    (dst : Nat) (bytes : Int)
    (h : ¬ ptr_diff src.last src.pos > ptr_diff (pool.heap dst).end_ (pool.heap dst).last) :
    save_upto (src :: cl) pool dst bytes =
      save_upto cl (save_copy pool dst src (ptr_diff src.last src.pos)) dst
        (to_ngx_int_t (bytes + ptr_diff src.last src.pos)) := by
  rw [save_upto]
  simp only [if_neg h]

theorem save_upto_cons_fail (src : ngx_buf_t) (cl : List ngx_buf_t) (pool : ngx_pool_t)
    (dst : Nat) (bytes : Int)
    (h : ptr_diff src.last src.pos > ptr_diff (pool.heap dst).end_ (pool.heap dst).last)
    (ha : (save_grow pool dst (ptr_diff src.last src.pos)).1 = none) :
    save_upto (src :: cl) pool dst bytes = none := by
  rw [save_upto]
  simp only [if_pos h]
  split
  · rfl
  · rename_i tmp pool1 heq
    rw [heq] at ha
    simp at ha

theorem save_upto_cons_grow (src : ngx_buf_t) (cl : List ngx_buf_t) (pool : ngx_pool_t)
    (dst : Nat) (bytes : Int) (tmp : Nat)
    (h : ptr_diff src.last src.pos > ptr_diff (pool.heap dst).end_ (pool.heap dst).last)
    (ha : (save_grow pool dst (ptr_diff src.last src.pos)).1 = some tmp) :
    save_upto (src :: cl) pool dst bytes =
      save_upto cl
        (save_copy (save_grow pool dst (ptr_diff src.last src.pos)).2 tmp src
          (ptr_diff src.last src.pos))
        tmp (to_ngx_int_t (bytes + ptr_diff src.last src.pos)) := by
  rw [save_upto]
  simp only [if_pos h]
  split
  · rename_i pool1 heq
    rw [heq] at ha
    simp at ha
  · rename_i tmp1 pool1 heq
    rw [heq] at ha
    simp only [Option.some.injEq] at ha
    subst ha
    rw [heq]

/-- The loop of `save` over a chain, split after a prefix at which it has not
returned: it goes on over the rest from the state the prefix left, and the
cells of the prefix have their cursors advanced. -/
theorem save_loop_append (a b : List ngx_buf_t) :
    ∀ (pool : ngx_pool_t) (dst : Nat) (bytes : Int) (p1 : ngx_pool_t) (d1 : Nat) (b1 : Int),
      save_upto a pool dst bytes = some (p1, d1, b1) →
      save_loop (a ++ b) pool dst bytes =
        ((save_loop b p1 d1 b1).1,
         a.map (fun c => { c with pos := c.pos + ptr_diff c.last c.pos })
           ++ (save_loop b p1 d1 b1).2.1,
         (save_loop b p1 d1 b1).2.2) := by
  induction a with
  | nil =>
    intro pool dst bytes p1 d1 b1 h
    simp only [save_upto, Option.some.injEq, Prod.mk.injEq] at h
    obtain ⟨rfl, rfl, rfl⟩ := h
    rfl
  | cons src a ih =>
    intro pool dst bytes p1 d1 b1 h
    rw [List.cons_append]
    by_cases hfit : ptr_diff src.last src.pos
        > ptr_diff (pool.heap dst).end_ (pool.heap dst).last
    · cases hg : (save_grow pool dst (ptr_diff src.last src.pos)).1 with
      | none =>
        rw [save_upto_cons_fail src a pool dst bytes hfit hg] at h
        exact absurd h (by simp)
      | some tmp =>
        rw [save_upto_cons_grow src a pool dst bytes tmp hfit hg] at h
        rw [save_loop_cons_grow src (a ++ b) pool dst bytes tmp hfit hg, ih _ _ _ _ _ _ h]
        rfl
    · rw [save_upto_cons_fits src a pool dst bytes hfit] at h
      rw [save_loop_cons_fits src (a ++ b) pool dst bytes hfit, ih _ _ _ _ _ _ h]
      rfl

/-- Over chunks that fit, the loop of `save` does not return early and keeps
its destination. -/
theorem save_upto_fits (cl : List ngx_buf_t) :
    ∀ (pool : ngx_pool_t) (dst : Nat) (bytes : Int),
      (pool.heap dst).last ≤ (pool.heap dst).end_ →
      (pool.heap dst).end_ < 2 ^ 64 →
      (∀ c ∈ cl, c.pos ≤ c.last) →
      unread cl ≤ (pool.heap dst).end_ - (pool.heap dst).last →
      ∃ b1, save_upto cl pool dst bytes
        = some ((save_loop cl pool dst bytes).2.2, dst, b1) := by
  induction cl with
  | nil =>
    intro pool dst bytes _ _ _ _
    exact ⟨bytes, rfl⟩
  | cons src cl ih =>
    intro pool dst bytes hle hend hwf hfit
    have hsrc : src.pos ≤ src.last := hwf src (List.mem_cons_self _ _)
    simp only [unread] at hfit
    have hn : ptr_diff src.last src.pos = src.last - src.pos :=
      ptr_diff_of_le hsrc (by omega)
    have hav : ptr_diff (pool.heap dst).end_ (pool.heap dst).last
        = (pool.heap dst).end_ - (pool.heap dst).last := ptr_diff_of_le hle (by omega)
    have hnot : ¬ ptr_diff src.last src.pos
        > ptr_diff (pool.heap dst).end_ (pool.heap dst).last := by
      rw [hn, hav]; omega
    rw [save_upto_cons_fits src cl pool dst bytes hnot,
      save_loop_cons_fits src cl pool dst bytes hnot]
    have hself := save_copy_heap_self pool dst src (ptr_diff src.last src.pos)
    exact ih (save_copy pool dst src (ptr_diff src.last src.pos)) dst _
      (by rw [hself, hn]; simp only []; omega)
      (by rw [hself]; exact hend)
      (fun c hc => hwf c (List.mem_cons_of_mem _ hc))
      (by rw [hself, hn]; simp only []; omega)

/-! ## The drain step: what it leaves untouched -/

/-- The loop of `save` never lowers the allocation mark of the pool and never
changes `start`, `end` or `pos` of a buffer that exists. -/
theorem save_loop_region (cl : List ngx_buf_t) :
    ∀ (pool : ngx_pool_t) (dst : Nat) (bytes : Int),
      pool.brk ≤ (save_loop cl pool dst bytes).2.2.brk ∧
      ∀ p, p < pool.brk →
        ((save_loop cl pool dst bytes).2.2.heap p).start = (pool.heap p).start ∧
        ((save_loop cl pool dst bytes).2.2.heap p).end_ = (pool.heap p).end_ ∧
        ((save_loop cl pool dst bytes).2.2.heap p).pos = (pool.heap p).pos := by
  induction cl with
  | nil =>
    intro pool dst bytes
    exact ⟨le_refl _, fun p _ => ⟨rfl, rfl, rfl⟩⟩
  | cons src cl ih =>
    intro pool dst bytes
    by_cases hfit : ptr_diff src.last src.pos
        > ptr_diff (pool.heap dst).end_ (pool.heap dst).last
    · cases hg : (ngx_create_temp_buf pool
          (grow_size (pool.heap dst) (ptr_diff src.last src.pos))).1 with
      | none =>
        have e := save_grow_none pool dst _ hg
        rw [save_loop_cons_fail src cl pool dst bytes hfit (by rw [e]), e]
        exact ⟨le_refl _, fun p _ => ⟨rfl, rfl, rfl⟩⟩
      | some tmp =>
        have hne : (ngx_create_temp_buf pool
            (grow_size (pool.heap dst) (ptr_diff src.last src.pos))).1 ≠ none := by
          rw [hg]; simp
        have e := save_grow_some pool dst _ hne
        have e1 : (save_grow pool dst (ptr_diff src.last src.pos)).1 = some pool.brk := by
          rw [e]
        rw [save_loop_cons_grow src cl pool dst bytes pool.brk hfit e1]
        obtain ⟨i1, i2⟩ := ih
          (save_copy (save_grow pool dst (ptr_diff src.last src.pos)).2 pool.brk src
            (ptr_diff src.last src.pos))
          pool.brk (to_ngx_int_t (bytes + ptr_diff src.last src.pos))
        have hbrk : (save_copy (save_grow pool dst (ptr_diff src.last src.pos)).2
            pool.brk src (ptr_diff src.last src.pos)).brk = pool.brk + 1 := by
          rw [e]; rfl
        rw [hbrk] at i1 i2
        refine ⟨by simp only []; omega, ?_⟩
        intro p hp
        have hpb : p ≠ pool.brk := by omega
        have hother : (save_copy (save_grow pool dst (ptr_diff src.last src.pos)).2
            pool.brk src (ptr_diff src.last src.pos)).heap p = pool.heap p := by
          rw [save_copy_heap_other _ _ _ _ _ hpb, e]
          exact Function.update_noteq hpb _ _
        have := i2 p (by omega)
        rw [hother] at this
        exact this
    · rw [save_loop_cons_fits src cl pool dst bytes hfit]
      obtain ⟨i1, i2⟩ := ih (save_copy pool dst src (ptr_diff src.last src.pos)) dst
        (to_ngx_int_t (bytes + ptr_diff src.last src.pos))
      have hbrk : (save_copy pool dst src (ptr_diff src.last src.pos)).brk = pool.brk := rfl
      rw [hbrk] at i1 i2
      refine ⟨i1, ?_⟩
      intro p hp
      have := i2 p hp
      by_cases hpd : p = dst
      · rw [hpd] at this ⊢
        rw [save_copy_heap_self] at this
        exact this
      · rw [save_copy_heap_other _ _ _ _ _ hpd] at this
        exact this

/-- Once the destination of the loop of `save` is a buffer at or above a mark
`B` of the pool, no buffer below `B` is written. -/
theorem save_loop_low (cl : List ngx_buf_t) :
    ∀ (pool : ngx_pool_t) (dst : Nat) (bytes : Int) (B : Nat),
      B ≤ dst → B ≤ pool.brk →
      ∀ p, p < B → (save_loop cl pool dst bytes).2.2.heap p = pool.heap p := by
  induction cl with
  | nil =>
    intro pool dst bytes B _ _ p _
    rfl
  | cons src cl ih =>
    intro pool dst bytes B hd hb p hp
    by_cases hfit : ptr_diff src.last src.pos
        > ptr_diff (pool.heap dst).end_ (pool.heap dst).last
    · cases hg : (ngx_create_temp_buf pool
          (grow_size (pool.heap dst) (ptr_diff src.last src.pos))).1 with
      | none =>
        have e := save_grow_none pool dst _ hg
        rw [save_loop_cons_fail src cl pool dst bytes hfit (by rw [e]), e]
      | some tmp =>
        have hne : (ngx_create_temp_buf pool
            (grow_size (pool.heap dst) (ptr_diff src.last src.pos))).1 ≠ none := by
          rw [hg]; simp
        have e := save_grow_some pool dst _ hne
        have e1 : (save_grow pool dst (ptr_diff src.last src.pos)).1 = some pool.brk := by
          rw [e]
        rw [save_loop_cons_grow src cl pool dst bytes pool.brk hfit e1]
        have hbrk : (save_copy (save_grow pool dst (ptr_diff src.last src.pos)).2
            pool.brk src (ptr_diff src.last src.pos)).brk = pool.brk + 1 := by
          rw [e]; rfl
        have hpb : p ≠ pool.brk := by omega
        have := ih
          (save_copy (save_grow pool dst (ptr_diff src.last src.pos)).2 pool.brk src
            (ptr_diff src.last src.pos))
          pool.brk (to_ngx_int_t (bytes + ptr_diff src.last src.pos)) B hb
          (by rw [hbrk]; omega) p hp
        simp only []
        rw [this, save_copy_heap_other _ _ _ _ _ hpb, e]
        exact Function.update_noteq hpb _ _
    · rw [save_loop_cons_fits src cl pool dst bytes hfit]
      have hpd : p ≠ dst := by omega
      have := ih (save_copy pool dst src (ptr_diff src.last src.pos)) dst
        (to_ngx_int_t (bytes + ptr_diff src.last src.pos)) B hd hb p hp
      simp only []
      rw [this, save_copy_heap_other _ _ _ _ _ hpd]

/-- From a chunk that does not fit on, the loop of `save` writes to no buffer
that existed before. -/
theorem save_loop_nofit (src : ngx_buf_t) (cl : List ngx_buf_t) (pool : ngx_pool_t)
    (dst : Nat) (bytes : Int)
    (hfit : ptr_diff src.last src.pos > ptr_diff (pool.heap dst).end_ (pool.heap dst).last) :
    ∀ p, p < pool.brk → (save_loop (src :: cl) pool dst bytes).2.2.heap p = pool.heap p := by
  intro p hp
  cases hg : (ngx_create_temp_buf pool
      (grow_size (pool.heap dst) (ptr_diff src.last src.pos))).1 with
  | none =>
    have e := save_grow_none pool dst _ hg
    rw [save_loop_cons_fail src cl pool dst bytes hfit (by rw [e]), e]
  | some tmp =>
    have hne : (ngx_create_temp_buf pool
        (grow_size (pool.heap dst) (ptr_diff src.last src.pos))).1 ≠ none := by
      rw [hg]; simp
    have e := save_grow_some pool dst _ hne
    have e1 : (save_grow pool dst (ptr_diff src.last src.pos)).1 = some pool.brk := by
      rw [e]
    rw [save_loop_cons_grow src cl pool dst bytes pool.brk hfit e1]
    have hbrk : (save_copy (save_grow pool dst (ptr_diff src.last src.pos)).2
        pool.brk src (ptr_diff src.last src.pos)).brk = pool.brk + 1 := by
      rw [e]; rfl
    have hpb : p ≠ pool.brk := by omega
    have := save_loop_low cl
      (save_copy (save_grow pool dst (ptr_diff src.last src.pos)).2 pool.brk src
        (ptr_diff src.last src.pos))
      pool.brk (to_ngx_int_t (bytes + ptr_diff src.last src.pos)) pool.brk (le_refl _)
      (by rw [hbrk]; omega) p hp
    simp only []
    rw [this, save_copy_heap_other _ _ _ _ _ hpb, e]
    exact Function.update_noteq hpb _ _

/-! ## The drain step never moves the accumulator reference -/

/-- C18: `save` leaves the context, and with it the pointer `bufs->buf`, as it
was, and the buffer that pointer refers to keeps its `start`, `end` and `pos`,
also when growth occurs.  When the chunks `pre` fit and the next chunk `src`
does not, the buffer `bufs->buf` refers to is, after the call, exactly as the
chunks of `pre` left it: its `last` is not advanced for `src` or any later
chunk, and no other buffer that existed before the call is written; those
chunks go to newly created buffers only. -/
theorem save_keeps_reference (bufs : ngx_chain_t) (r r' : ngx_http_request_t)
    (rb : ngx_http_request_body_t) (n : Int)
    (hrb : r.request_body = some rb) (hs : save (some bufs) r = some (n, r'))
    (hvalid : bufs.buf < r.pool.brk) :
    r'.ctx = r.ctx ∧
    (∃ rb', r'.request_body = some rb' ∧ rb'.bufs = rb.bufs) ∧
    (r'.pool.heap bufs.buf).start = (r.pool.heap bufs.buf).start ∧
    (r'.pool.heap bufs.buf).end_ = (r.pool.heap bufs.buf).end_ ∧
    (r'.pool.heap bufs.buf).pos = (r.pool.heap bufs.buf).pos ∧
    (∀ pre src post, rb.busy = pre ++ src :: post →
      (r.pool.heap bufs.buf).last ≤ (r.pool.heap bufs.buf).end_ →
      (r.pool.heap bufs.buf).end_ < 2 ^ 64 →
      (∀ c ∈ pre, c.pos ≤ c.last) →
      unread pre ≤ (r.pool.heap bufs.buf).end_ - (r.pool.heap bufs.buf).last →
      ptr_diff src.last src.pos
        > (r.pool.heap bufs.buf).end_ - (r.pool.heap bufs.buf).last - unread pre →
      r'.pool.heap bufs.buf = (save_loop pre r.pool bufs.buf 0).2.2.heap bufs.buf ∧
      (r'.pool.heap bufs.buf).last = (r.pool.heap bufs.buf).last + unread pre ∧
      ((r.pool.heap bufs.buf).pos ≤ (r.pool.heap bufs.buf).last →
        accumulated bufs r' = accumulated bufs r ++ unread_bytes pre) ∧
      ∀ p, p < r.pool.brk → p ≠ bufs.buf → r'.pool.heap p = r.pool.heap p) := by
  rw [save_eq bufs r rb hrb] at hs
  simp only [Option.some.injEq, Prod.mk.injEq] at hs
  obtain ⟨_, rfl⟩ := hs
  obtain ⟨_, g2⟩ := save_loop_region rb.busy r.pool bufs.buf 0
  obtain ⟨g3, g4, g5⟩ := g2 bufs.buf hvalid
  refine ⟨rfl, ⟨_, rfl, rfl⟩, g3, g4, g5, ?_⟩
  intro pre src post hsplit hle hend hwf hfit hno
  obtain ⟨b1, hp⟩ := save_upto_fits pre r.pool bufs.buf 0 hle hend hwf hfit
  obtain ⟨_, f2, _, _, f5, _, _, f8, f9, f10⟩ :=
    save_loop_fits pre r.pool bufs.buf 0 hle hend hwf hfit
  have happ := save_loop_append pre (src :: post) r.pool bufs.buf 0 _ _ _ hp
  have hnofit : ptr_diff src.last src.pos
      > ptr_diff ((save_loop pre r.pool bufs.buf 0).2.2.heap bufs.buf).end_
          ((save_loop pre r.pool bufs.buf 0).2.2.heap bufs.buf).last := by
    have hav : ptr_diff ((save_loop pre r.pool bufs.buf 0).2.2.heap bufs.buf).end_
        ((save_loop pre r.pool bufs.buf 0).2.2.heap bufs.buf).last
        = ((save_loop pre r.pool bufs.buf 0).2.2.heap bufs.buf).end_
          - ((save_loop pre r.pool bufs.buf 0).2.2.heap bufs.buf).last :=
      ptr_diff_of_le (by rw [f8, f9]; omega) (by rw [f8]; omega)
    rw [hav, f8, f9]
    omega
  have hlow := save_loop_nofit src post (save_loop pre r.pool bufs.buf 0).2.2 bufs.buf b1
    hnofit
  rw [f2] at hlow
  have hheap : ∀ p, p < r.pool.brk →
      (save_loop rb.busy r.pool bufs.buf 0).2.2.heap p
        = (save_loop pre r.pool bufs.buf 0).2.2.heap p := by
    intro p hp'
    rw [hsplit, happ]
    exact hlow p hp'
  refine ⟨hheap _ hvalid, ?_, ?_, ?_⟩
  · show ((save_loop rb.busy r.pool bufs.buf 0).2.2.heap bufs.buf).last = _
    rw [hheap _ hvalid, f9]
  · intro hpos
    show ((save_loop rb.busy r.pool bufs.buf 0).2.2.heap bufs.buf).data = _
    rw [hheap _ hvalid, f10 hpos]
    rfl
  · intro p hp' hne
    show (save_loop rb.busy r.pool bufs.buf 0).2.2.heap p = _
    rw [hheap p hp', f5 p hne]

/-- An instance of `save_keeps_reference`: the chunk `[1, 2, 3]` fits in the
accumulator of capacity 4 and the chunk `[4, 5, 6]` does not; after the call
the accumulator has written length 3. -/
theorem save_keeps_reference_witness :
    ∃ n r', save (some small_accumulator.1) growth_request = some (n, r') ∧
      (r'.pool.heap small_accumulator.1.buf).last
        = (growth_request.pool.heap small_accumulator.1.buf).last
          + unread [chunk_of [1, 2, 3]] :=
  ⟨_, _, save_eq small_accumulator.1 growth_request _ rfl,
    ((save_keeps_reference small_accumulator.1 growth_request _ _ _ rfl
        (save_eq small_accumulator.1 growth_request _ rfl) (by decide)).2.2.2.2.2
      [chunk_of [1, 2, 3]] (chunk_of [4, 5, 6]) [] rfl
      (by decide) (by decide) (by decide) (by decide) (by decide)).2.1⟩

/-! ## The drain step fails exactly on an allocation failure -/

/-- On well-formed chunks whose unread bytes stay in the range of `ngx_int_t`,
a negative result of the loop of `save` comes from a chunk that did not fit
its current destination and an allocation that failed. -/
theorem save_loop_negative (cl : List ngx_buf_t) :
    ∀ (pool : ngx_pool_t) (dst : Nat) (bytes : Int),
      (∀ c ∈ cl, c.pos ≤ c.last) → 0 ≤ bytes → bytes + unread cl < 2 ^ 63 →
      (save_loop cl pool dst bytes).1 < 0 →
      ∃ pre src post p1 d1 b1, cl = pre ++ src :: post ∧
        save_upto pre pool dst bytes = some (p1, d1, b1) ∧
        ptr_diff src.last src.pos > ptr_diff (p1.heap d1).end_ (p1.heap d1).last ∧
        (ngx_create_temp_buf p1 (grow_size (p1.heap d1) (ptr_diff src.last src.pos))).1
          = none := by
  induction cl with
  | nil =>
    intro pool dst bytes _ h0 _ h
    simp only [save_loop] at h
    omega
  | cons src cl ih =>
    intro pool dst bytes hwf h0 hsum h
    have hsrc : src.pos ≤ src.last := hwf src (List.mem_cons_self _ _)
    have hcl : ∀ c ∈ cl, c.pos ≤ c.last := fun c hc => hwf c (List.mem_cons_of_mem _ hc)
    simp only [unread, Nat.cast_add] at hsum
    have hn : ptr_diff src.last src.pos = src.last - src.pos :=
      ptr_diff_of_le hsrc (by omega)
    have hb : to_ngx_int_t (bytes + ((ptr_diff src.last src.pos : Nat) : Int))
        = bytes + ((src.last - src.pos : Nat) : Int) := by
      rw [hn]
      exact to_ngx_int_t_of_range (by omega) (by omega)
    by_cases hfit : ptr_diff src.last src.pos
        > ptr_diff (pool.heap dst).end_ (pool.heap dst).last
    · cases hg : (ngx_create_temp_buf pool
          (grow_size (pool.heap dst) (ptr_diff src.last src.pos))).1 with
      | none =>
        exact ⟨[], src, cl, pool, dst, bytes, rfl, rfl, hfit, hg⟩
      | some tmp =>
        have hne : (ngx_create_temp_buf pool
            (grow_size (pool.heap dst) (ptr_diff src.last src.pos))).1 ≠ none := by
          rw [hg]; simp
        have e := save_grow_some pool dst _ hne
        have e1 : (save_grow pool dst (ptr_diff src.last src.pos)).1 = some pool.brk := by
          rw [e]
        rw [save_loop_cons_grow src cl pool dst bytes pool.brk hfit e1, hb] at h
        obtain ⟨pre, s, post, p1, d1, b1, hsplit, hpre, hno, hfail⟩ :=
          ih _ _ _ hcl (by omega) (by omega) h
        refine ⟨src :: pre, s, post, p1, d1, b1, by rw [hsplit]; rfl, ?_, hno, hfail⟩
        rw [save_upto_cons_grow src pre pool dst bytes pool.brk hfit e1, hb]
        exact hpre
    · rw [save_loop_cons_fits src cl pool dst bytes hfit, hb] at h
      obtain ⟨pre, s, post, p1, d1, b1, hsplit, hpre, hno, hfail⟩ :=
        ih _ _ _ hcl (by omega) (by omega) h
      refine ⟨src :: pre, s, post, p1, d1, b1, by rw [hsplit]; rfl, ?_, hno, hfail⟩
      rw [save_upto_cons_fits src pre pool dst bytes hfit, hb]
      exact hpre

/-- When, after a prefix of the chain, a chunk does not fit the current
destination and the allocation fails, the loop of `save` returns `NGX_ERROR`
and leaves the cursors of that chunk and of the chunks after it as they
were. -/
theorem save_loop_fails (pre post : List ngx_buf_t) (src : ngx_buf_t)
    (pool p1 : ngx_pool_t) (dst d1 : Nat) (bytes b1 : Int)
    (hpre : save_upto pre pool dst bytes = some (p1, d1, b1))
    (hno : ptr_diff src.last src.pos > ptr_diff (p1.heap d1).end_ (p1.heap d1).last)
    (hfail : (ngx_create_temp_buf p1 (grow_size (p1.heap d1) (ptr_diff src.last src.pos))).1
      = none) :
    (save_loop (pre ++ src :: post) pool dst bytes).1 = NGX_ERROR ∧
    (save_loop (pre ++ src :: post) pool dst bytes).2.1
      = pre.map (fun c => { c with pos := c.pos + ptr_diff c.last c.pos }) ++ src :: post := by
  have e := save_grow_none p1 d1 _ hfail
  rw [save_loop_append pre (src :: post) pool dst bytes p1 d1 b1 hpre,
    save_loop_cons_fail src post p1 d1 b1 hno (by rw [e])]
  exact ⟨rfl, rfl⟩

/-- C19: on a request whose chunks are well formed (`pos <= last`, fewer than
`2 ^ 63` unread bytes in all), `save` returns a negative value if and only if
the chain splits into chunks `pre`, over which the loop has not returned, a
chunk `src` whose unread byte count exceeds the remaining capacity of the
destination the loop has reached, with the allocation of the larger buffer
failing, and the chunks after it.  The negative value is then `NGX_ERROR`,
and `src` and the chunks after it keep their read cursors, those before it
being consumed; in every other case the value is non-negative. -/
theorem save_fails_iff (bufs : ngx_chain_t) (r : ngx_http_request_t)
    (rb : ngx_http_request_body_t) (hrb : r.request_body = some rb)
    (hwf : ∀ c ∈ rb.busy, c.pos ≤ c.last) (hsum : unread rb.busy < 2 ^ 63) :
    ∃ n r', save (some bufs) r = some (n, r') ∧
      (n < 0 ↔
        ∃ pre src post p1 d1 b1, rb.busy = pre ++ src :: post ∧
          save_upto pre r.pool bufs.buf 0 = some (p1, d1, b1) ∧
          ptr_diff src.last src.pos > ptr_diff (p1.heap d1).end_ (p1.heap d1).last ∧
          (ngx_create_temp_buf p1 (grow_size (p1.heap d1) (ptr_diff src.last src.pos))).1
            = none) ∧
      (0 ≤ n ∨ n = NGX_ERROR) ∧
      (∀ pre src post p1 d1 b1, rb.busy = pre ++ src :: post →
        save_upto pre r.pool bufs.buf 0 = some (p1, d1, b1) →
        ptr_diff src.last src.pos > ptr_diff (p1.heap d1).end_ (p1.heap d1).last →
        (ngx_create_temp_buf p1 (grow_size (p1.heap d1) (ptr_diff src.last src.pos))).1
          = none →
        n = NGX_ERROR ∧
        ∃ rb', r'.request_body = some rb' ∧
          rb'.busy = pre.map (fun c => { c with pos := c.last }) ++ src :: post) := by
  have hfails : ∀ pre src post p1 d1 b1, rb.busy = pre ++ src :: post →
      save_upto pre r.pool bufs.buf 0 = some (p1, d1, b1) →
      ptr_diff src.last src.pos > ptr_diff (p1.heap d1).end_ (p1.heap d1).last →
      (ngx_create_temp_buf p1 (grow_size (p1.heap d1) (ptr_diff src.last src.pos))).1
        = none →
      (save_loop rb.busy r.pool bufs.buf 0).1 = NGX_ERROR ∧
      (save_loop rb.busy r.pool bufs.buf 0).2.1
        = pre.map (fun c => { c with pos := c.last }) ++ src :: post := by
    intro pre src post p1 d1 b1 hsplit hpre hno hfail
    obtain ⟨q1, q2⟩ := save_loop_fails pre post src r.pool p1 bufs.buf d1 0 b1 hpre hno hfail
    rw [← hsplit] at q1 q2
    refine ⟨q1, ?_⟩
    rw [q2]
    congr 1
    apply List.map_congr_left
    intro c hc
    have hcw : c.pos ≤ c.last := hwf c (by rw [hsplit]; exact List.mem_append_left _ hc)
    have hcu : c.last - c.pos < 2 ^ 64 := by
      have : c.last - c.pos ≤ unread rb.busy := by
        rw [hsplit, unread_append]
        have : ∀ (l : List ngx_buf_t), c ∈ l → c.last - c.pos ≤ unread l := by
          intro l
          induction l with
          | nil => intro h; simp at h
          | cons x l ih =>
            intro h
            simp only [unread]
            rcases List.mem_cons.mp h with rfl | h'
            · omega
            · have := ih h'
              omega
        have := this pre hc
        omega
      omega
    rw [ptr_diff_of_le hcw hcu]
    congr 1
    omega
  refine ⟨_, _, save_eq bufs r rb hrb, ?_, ?_, ?_⟩
  · constructor
    · intro h
      exact save_loop_negative rb.busy r.pool bufs.buf 0 hwf (le_refl _) (by omega) h
    · rintro ⟨pre, src, post, p1, d1, b1, hsplit, hpre, hno, hfail⟩
      rw [(hfails pre src post p1 d1 b1 hsplit hpre hno hfail).1]
      decide
  · by_cases h : (save_loop rb.busy r.pool bufs.buf 0).1 < 0
    · obtain ⟨pre, src, post, p1, d1, b1, hsplit, hpre, hno, hfail⟩ :=
        save_loop_negative rb.busy r.pool bufs.buf 0 hwf (le_refl _) (by omega) h
      exact Or.inr (hfails pre src post p1 d1 b1 hsplit hpre hno hfail).1
    · exact Or.inl (by omega)
  · intro pre src post p1 d1 b1 hsplit hpre hno hfail
    obtain ⟨q1, q2⟩ := hfails pre src post p1 d1 b1 hsplit hpre hno hfail
    exact ⟨q1, _, rfl, q2⟩

/-- An instance of `save_fails_iff`: a chunk of 6 bytes waits for an
accumulator of capacity 4 and the allocation fails; `save` returns
`NGX_ERROR` and the chunk keeps its cursor. -/
theorem save_fails_iff_witness :
    ∃ n r', save (some retry_request.1) retry_request.2 = some (n, r') ∧
      n = NGX_ERROR ∧
      ∃ rb', r'.request_body = some rb' ∧
        rb'.busy = ([] : List ngx_buf_t).map (fun c => { c with pos := c.last })
          ++ chunk_of [1, 2, 3, 4, 5, 6] :: [] := by
  obtain ⟨n, r', h1, _, _, h4⟩ := save_fails_iff retry_request.1 retry_request.2
    { bufs := none, busy := [chunk_of [1, 2, 3, 4, 5, 6]] } rfl (by decide) (by decide)
  exact ⟨n, r', h1,
    h4 [] (chunk_of [1, 2, 3, 4, 5, 6]) [] retry_request.2.pool retry_request.1.buf 0
      rfl rfl (by decide) (by decide)⟩

end ReadRequestBody
